import Mathlib

/-!
Verification development for the static evaluator of the Ethereal chess
engine (files `evaluate.c` and `psqt.c` of the repository).

The evaluator is embedded shallowly:

* bitboards are finite sets of squares (`Finset (Fin 64)`), so `popcount`
  is `Finset.card` and the C bitwise operations are set operations;
* the packed middlegame/endgame score word is modelled as a pair of
  integers, as the specification explicitly allows ("a compliant
  implementation may use a `struct{i16 mg; i16 eg}`");
* C `int` arithmetic is `Int`; C truncating division is `Int.tdiv`;
* the bitboard and mask primitives (`attacks.h`, `bitboards.h`,
  `masks.h`) and the pawn-king table (`transposition.h`) are not part of
  the given sources, so they are modelled from the specification's
  descriptions; every such definition is marked
  `Modelled from the spec`.
-/

namespace Ethereal

/-- The two sides. `WHITE`/`BLACK` of `types.h`. -/
inductive Colour where
  | white : Colour
  | black : Colour
deriving DecidableEq

/-- The `!colour` operation of the C code. -/
def Colour.flip : Colour → Colour
  | .white => .black
  | .black => .white

/-- Piece kinds `PAWN`..`KING` of `types.h`. -/
inductive Piece where
  | pawn : Piece
  | knight : Piece
  | bishop : Piece
  | rook : Piece
  | queen : Piece
  | king : Piece
deriving DecidableEq

instance : Fintype Piece :=
  ⟨⟨{.pawn, .knight, .bishop, .rook, .queen, .king}, by decide⟩, by intro p; cases p <;> decide⟩

/-- Board squares, a1 = 0 … h8 = 63 (rank-major, as in the C code). -/
abbrev Square := Fin 64

/-- A bitboard: a set of squares. `popcount` is `Finset.card`. -/
abbrev Bitboard := Finset Square

/-- A tapered score: the (mg, eg) pair packed by `MakeScore` in the C code. -/
abbrev Score := Int × Int

/-- The `MakeScore`/`S(mg, eg)` constructor. -/
def MakeScore (mg eg : Int) : Score := (mg, eg)

/-- Middlegame half of a score. -/
def ScoreMG (s : Score) : Int := s.1

/-- Endgame half of a score. -/
def ScoreEG (s : Score) : Int := s.2

/-- File (column) of a square, 0..7. -/
def fileOf (s : Square) : Nat := s.val % 8

/-- Rank (row) of a square, 0..7, from white's side. -/
def rankOf (s : Square) : Nat := s.val / 8

/-- File as an integer, for coordinate arithmetic. -/
def fi (s : Square) : Int := fileOf s

/-- Rank as an integer, for coordinate arithmetic. -/
def ri (s : Square) : Int := rankOf s

/-- Rank of a square seen from colour `c`'s side (`relativeRankOf`). -/
def relativeRankOf (c : Colour) (s : Square) : Nat :=
  match c with
  | .white => rankOf s
  | .black => 7 - rankOf s

/-- Modelled from the spec: `mirrorFile` folds a file onto the a–d half. -/
def mirrorFile (f : Nat) : Nat := min f (7 - f)

/-- Modelled from the spec: Chebyshev (king-move) distance `distanceBetween`. -/
def distanceBetween (a b : Square) : Nat :=
  max ((fi a - fi b).natAbs) ((ri a - ri b).natAbs)

/-- The `popcount` primitive: number of set bits. -/
def popcount (b : Bitboard) : Nat := b.card

/-- Modelled from the spec: `onlyOne` tests for exactly one set bit. -/
def onlyOne (b : Bitboard) : Prop := b.card = 1

instance (b : Bitboard) : Decidable (onlyOne b) := by
  unfold onlyOne; infer_instance

/-- Modelled from the spec: `getlsb`, the lowest set square (unused on
empty boards by the evaluator's preconditions; totalised with square 0). -/
def getlsb (b : Bitboard) : Square :=
  if h : b.Nonempty then b.min' h else 0

/-- Modelled from the spec: the highest set square (`getmsb`). -/
def getmsb (b : Bitboard) : Square :=
  if h : b.Nonempty then b.max' h else 0

/-- Modelled from the spec: `backmost` pawn of colour `c`, the one
closest to `c`'s own back rank. -/
def backmost (c : Colour) (b : Bitboard) : Square :=
  match c with
  | .white => getlsb b
  | .black => getmsb b

/-- Modelled from the spec: the `Files[8]` mask table. -/
def Files (f : Nat) : Bitboard := Finset.univ.filter (fun s => fileOf s = f)

/-- Modelled from the spec: rank mask, `RANK_1` = `Ranks 0` … . -/
def Ranks (r : Nat) : Bitboard := Finset.univ.filter (fun s => rankOf s = r)

/-- Modelled from the spec: `adjacentFilesMasks`, the files next to `f`. -/
def adjacentFilesMasks (f : Nat) : Bitboard :=
  Finset.univ.filter (fun s => fileOf s + 1 = f ∨ fileOf s = f + 1)

/-- Modelled from the spec: the light squares, `WHITE_SQUARES`. -/
def WHITE_SQUARES : Bitboard :=
  Finset.univ.filter (fun s => (fileOf s + rankOf s) % 2 = 1)

/-- Modelled from the spec: the dark squares, `BLACK_SQUARES`. -/
def BLACK_SQUARES : Bitboard :=
  Finset.univ.filter (fun s => (fileOf s + rankOf s) % 2 = 0)

/-- Forward direction of a colour: white pawns move to higher ranks. -/
def dirOf (c : Colour) : Int :=
  match c with
  | .white => 1
  | .black => -1

/-- Modelled from the spec: squares attacked by a `c`-coloured pawn
standing on file `f`, rank `r` (coordinates may be off-board, in which
case fewer or no squares match, reproducing the shift semantics). -/
def pawnAttacksAt (c : Colour) (f r : Int) : Bitboard :=
  Finset.univ.filter (fun t => ri t = r + dirOf c ∧ (fi t = f + 1 ∨ fi t = f - 1))

/-- Modelled from the spec: `pawnAttacks(colour, sq)`. -/
def pawnAttacks (c : Colour) (sq : Square) : Bitboard :=
  pawnAttacksAt c (fi sq) (ri sq)

/-- Modelled from the spec: `pawnAttackSpan(pawns, mask, colour)`, the
squares of `mask` attacked by some pawn of `pawns`. -/
def pawnAttackSpan (pawns mask : Bitboard) (c : Colour) : Bitboard :=
  mask.filter (fun t => ∃ p ∈ pawns, t ∈ pawnAttacks c p)

/-- Modelled from the spec: `pawnAdvance(pawns, occupied, colour)`, the
squares one step in `c`'s forward direction from `pawns` that are not in
`occupied`. -/
def pawnAdvance (bb occ : Bitboard) (c : Colour) : Bitboard :=
  Finset.univ.filter (fun t => t ∉ occ ∧ ∃ p ∈ bb, fi t = fi p ∧ ri t = ri p + dirOf c)

/-- Modelled from the spec: knight attack pattern. -/
def knightAttacks (sq : Square) : Bitboard :=
  Finset.univ.filter (fun t =>
    ((fi t - fi sq).natAbs = 1 ∧ (ri t - ri sq).natAbs = 2) ∨
    ((fi t - fi sq).natAbs = 2 ∧ (ri t - ri sq).natAbs = 1))

/-- Modelled from the spec: king attack pattern (the 8 neighbours). -/
def kingAttacks (sq : Square) : Bitboard :=
  Finset.univ.filter (fun t =>
    t ≠ sq ∧ (fi t - fi sq).natAbs ≤ 1 ∧ (ri t - ri sq).natAbs ≤ 1)

/-- Modelled from the spec: the squares strictly between `a` and `b` on a
common rook or bishop line (collinearity by cross product plus
componentwise betweenness). -/
def between (a b : Square) : Bitboard :=
  Finset.univ.filter (fun u =>
    u ≠ a ∧ u ≠ b ∧
    (fi u - fi a) * (ri b - ri a) = (ri u - ri a) * (fi b - fi a) ∧
    (fi u - fi a) * (fi u - fi b) ≤ 0 ∧
    (ri u - ri a) * (ri u - ri b) ≤ 0)

/-- Modelled from the spec: `bishopAttacks(sq, occupied)`, diagonal rays
stopped by (and including) the first occupied square. -/
def bishopAttacks (sq : Square) (occ : Bitboard) : Bitboard :=
  Finset.univ.filter (fun t =>
    t ≠ sq ∧
    (fi t - fi sq = ri t - ri sq ∨ fi t - fi sq = -(ri t - ri sq)) ∧
    between sq t ∩ occ = ∅)

/-- Modelled from the spec: `rookAttacks(sq, occupied)`. -/
def rookAttacks (sq : Square) (occ : Bitboard) : Bitboard :=
  Finset.univ.filter (fun t =>
    t ≠ sq ∧ (fi t = fi sq ∨ ri t = ri sq) ∧ between sq t ∩ occ = ∅)

/-- Modelled from the spec: `passedPawnMasks(colour, sq)`, the squares on
the pawn's file and the adjacent files, strictly ahead of it. -/
def passedPawnMasks (c : Colour) (sq : Square) : Bitboard :=
  Finset.univ.filter (fun t =>
    (fi t - fi sq).natAbs ≤ 1 ∧ 1 ≤ dirOf c * (ri t - ri sq))

/-- Modelled from the spec: `outpostRanksMasks`, relative ranks 4–6. -/
def outpostRanksMasks (c : Colour) : Bitboard :=
  Finset.univ.filter (fun t =>
    relativeRankOf c t = 3 ∨ relativeRankOf c t = 4 ∨ relativeRankOf c t = 5)

/-- Modelled from the spec: `outpostSquareMasks(colour, sq)`, the squares
from which an enemy pawn could ever attack `sq` (the passed-pawn mask
without the pawn's own file). -/
def outpostSquareMasks (c : Colour) (sq : Square) : Bitboard :=
  passedPawnMasks c sq \ Files (fileOf sq)

/-- Modelled from the spec: `pawnConnectedMasks(colour, sq)`, the squares
whose own pawn makes `sq` connected (same rank or one rank behind, on an
adjacent file). -/
def pawnConnectedMasks (c : Colour) (sq : Square) : Bitboard :=
  Finset.univ.filter (fun t =>
    (fi t = fi sq + 1 ∨ fi t = fi sq - 1) ∧
    (ri t = ri sq ∨ ri t = ri sq - dirOf c))

/-- Modelled from the spec: `forwardRanksMasks(colour, rank)`, the ranks
at or ahead of `rank` from `c`'s point of view. -/
def forwardRanksMasks (c : Colour) (r : Nat) : Bitboard :=
  Finset.univ.filter (fun t => 0 ≤ dirOf c * (ri t - (r : Int)))

/-- Modelled from the spec: `kingAreaMasks(colour, sq)`, the 3×3
neighborhood of the king, shifted one rank toward enemy territory when
the king is on its own back rank. -/
def kingAreaMasks (c : Colour) (sq : Square) : Bitboard :=
  let cr : Int := if relativeRankOf c sq = 0 then ri sq + dirOf c else ri sq
  Finset.univ.filter (fun t =>
    (fi t - fi sq).natAbs ≤ 1 ∧ (ri t - cr).natAbs ≤ 1)

/-- Shorthand for the `S(mg, eg)` macro of `evaluate.c`. -/
def S (mg eg : Int) : Score := MakeScore mg eg

/-- Table lookup, `l[i]` (all indices used by the evaluator are in range). -/
def tget (l : List Score) (i : Nat) : Score := l.getD i 0

/-- C's implicit conversion of a condition to an array index 0/1. -/
def bidx (b : Bool) : Nat := if b then 1 else 0

/-- Material values `PieceValues[8][PHASE_NB]` of `evaluate.c`. -/
def PieceValues : Piece → Score
  | .pawn => S 110 129
  | .knight => S 460 412
  | .bishop => S 481 430
  | .rook => S 677 714
  | .queen => S 1263 1375
  | .king => S 0 0

/-- Pawn evaluation term `PawnCandidatePasser[2][RANK_NB]`. -/
def PawnCandidatePasser (flag : Bool) (rank : Nat) : Score :=
  tget
    (if flag then
      [S 0 0, S (-13) 14, S (-5) 21, S 4 44, S 16 85, S 33 52, S 0 0, S 0 0]
     else
      [S 0 0, S (-26) (-11), S (-12) 9, S (-12) 27, S 3 62, S 47 68, S 0 0, S 0 0])
    rank

/-- Pawn evaluation term `PawnIsolated`. -/
def PawnIsolated : Score := S (-8) (-10)

/-- Pawn evaluation term `PawnStacked`. -/
def PawnStacked : Score := S (-19) (-26)

/-- Pawn evaluation term `PawnBackwards[2]`. -/
def PawnBackwards (flag : Bool) : Score :=
  if flag then S (-6) (-18) else S 8 (-2)

/-- Pawn evaluation term `PawnConnected32[32]`. -/
def PawnConnected32 (i : Nat) : Score :=
  tget
    [S 0 0, S 0 0, S 0 0, S 0 0,
     S (-2) (-7), S 11 0, S 4 0, S 4 18,
     S 15 0, S 34 (-1), S 22 10, S 26 18,
     S 10 0, S 23 4, S 10 12, S 15 23,
     S 16 7, S 24 14, S 31 20, S 34 21,
     S 57 26, S 53 47, S 69 55, S 82 59,
     S 110 (-1), S 202 10, S 227 28, S 240 51,
     S 0 0, S 0 0, S 0 0, S 0 0] i

/-- Knight evaluation term `KnightOutpost[2]`. -/
def KnightOutpost (defended : Bool) : Score :=
  if defended then S 31 (-3) else S 7 (-25)

/-- Knight evaluation term `KnightBehindPawn`. -/
def KnightBehindPawn : Score := S 4 21

/-- Knight evaluation term `KnightMobility[9]`. -/
def KnightMobility (i : Nat) : Score :=
  tget
    [S (-81) (-101), S (-32) (-99), S (-17) (-43), S (-3) (-17),
     S 8 (-6), S 15 8, S 24 12, S 34 12,
     S 45 0] i

/-- Bishop evaluation term `BishopPair`. -/
def BishopPair : Score := S 26 70

/-- Bishop evaluation term `BishopRammedPawns`. -/
def BishopRammedPawns : Score := S (-10) (-16)

/-- Bishop evaluation term `BishopOutpost[2]`. -/
def BishopOutpost (defended : Bool) : Score :=
  if defended then S 42 0 else S 10 (-11)

/-- Bishop evaluation term `BishopBehindPawn`. -/
def BishopBehindPawn : Score := S 3 19

/-- Bishop evaluation term `BishopMobility[14]`. -/
def BishopMobility (i : Nat) : Score :=
  tget
    [S (-64) (-146), S (-28) (-95), S (-8) (-55), S 2 (-29),
     S 12 (-16), S 19 (-1), S 22 8, S 22 14,
     S 22 19, S 24 20, S 23 20, S 39 9,
     S 40 13, S 65 (-20)] i

/-- Rook evaluation term `RookFile[2]`. -/
def RookFile (open_ : Bool) : Score :=
  if open_ then S 40 2 else S 18 6

/-- Rook evaluation term `RookOnSeventh`. -/
def RookOnSeventh : Score := S 0 32

/-- Rook evaluation term `RookMobility[15]`. -/
def RookMobility (i : Nat) : Score :=
  tget
    [S (-149) (-112), S (-52) (-116), S (-12) (-62), S (-4) (-20),
     S (-5) 0, S (-5) 15, S (-4) 25, S 1 28,
     S 8 31, S 11 36, S 14 42, S 18 46,
     S 18 51, S 25 45, S 70 17] i

/-- Queen evaluation term `QueenMobility[28]`. -/
def QueenMobility (i : Nat) : Score :=
  tget
    [S (-61) (-263), S (-211) (-387), S (-60) (-202), S (-25) (-192),
     S (-13) (-141), S (-8) (-90), S (-2) (-62), S (-3) (-35),
     S 0 (-24), S 0 (-1), S 3 10, S 4 23,
     S 6 24, S 8 34, S 5 39, S 5 42,
     S 3 46, S (-1) 45, S 0 39, S (-3) 33,
     S 4 12, S 18 (-7), S 19 (-37), S 21 (-55),
     S 5 (-70), S 20 (-95), S (-57) (-39), S (-27) (-54)] i

/-- King evaluation term `KingDefenders[12]`. -/
def KingDefenders (i : Nat) : Score :=
  tget
    [S (-21) (-3), S (-9) 0, S 0 2, S 7 4,
     S 16 5, S 27 2, S 32 0, S 14 0,
     S 12 6, S 12 6, S 12 6, S 12 6] i

/-- King evaluation table `KingShelter[2][FILE_NB][RANK_NB]`; the first
index is whether the scanned file is the king's file. -/
def KingShelter (own : Bool) (f d : Nat) : Score :=
  let t0 : List (List Score) :=
    [[S (-12) 4, S 16 (-24), S 18 (-9), S 9 2,
      S 4 3, S 7 2, S (-2) (-32), S (-49) 19],
     [S 16 (-6), S 23 (-18), S 0 (-5), S (-17) 2,
      S (-30) 13, S (-69) 69, S 93 84, S (-29) 3],
     [S 32 (-1), S 16 (-9), S (-26) 6, S (-11) (-9),
      S (-22) (-4), S (-7) (-1), S 0 66, S (-15) 0],
     [S 3 13, S 20 (-8), S 3 (-11), S 14 (-23),
      S 23 (-35), S (-51) 1, S (-137) 51, S 3 (-5)],
     [S (-13) 8, S 1 (-2), S (-26) 0, S (-18) 2,
      S (-20) (-8), S (-38) 0, S 34 (-15), S (-8) (-1)],
     [S 44 (-14), S 25 (-18), S (-21) 0, S (-12) (-19),
      S 4 (-25), S 17 (-23), S 42 (-29), S (-25) 1],
     [S 23 (-10), S 1 (-17), S (-23) (-4), S (-19) (-11),
      S (-29) (-9), S (-34) 31, S 0 44, S (-12) 3],
     [S (-10) (-8), S 7 (-18), S 8 (-2), S (-2) 7,
      S (-11) 13, S (-9) 37, S (-190) 87, S (-19) 15]]
  let t1 : List (List Score) :=
    [[S 0 0, S (-10) (-22), S 0 (-16), S (-42) 16,
      S (-18) 0, S 3 43, S (-167) (-9), S (-45) 11],
     [S 0 0, S 25 (-20), S 6 (-8), S (-19) (-3),
      S 0 (-15), S 28 71, S (-184) (-4), S (-42) 6],
     [S 0 0, S 35 (-11), S (-1) (-6), S 8 (-18),
      S 13 (-8), S (-91) 48, S (-85) (-75), S (-22) (-3)],
     [S 0 0, S (-1) 9, S (-1) 1, S (-15) 0,
      S (-26) 0, S (-101) 29, S 7 (-42), S (-23) (-4)],
     [S 0 0, S 11 3, S 11 (-5), S 13 (-11),
      S 13 (-24), S (-54) 15, S (-105) (-63), S (-2) (-6)],
     [S 0 0, S 9 (-6), S (-20) 0, S (-27) (-8),
      S 18 (-26), S (-39) 2, S 56 39, S (-21) (-3)],
     [S 0 0, S 24 (-13), S 11 (-12), S (-10) (-9),
      S (-29) 5, S (-8) 14, S (-56) (-51), S (-34) 14],
     [S 0 0, S 14 (-36), S 19 (-27), S (-18) (-5),
      S (-17) 15, S (-1) 15, S (-229) (-57), S (-23) 6]]
  tget ((if own then t1 else t0).getD f []) d

/-- King evaluation table `KingStorm[2][FILE_NB/2][RANK_NB]`; the first
index is whether the advancing enemy pawn is blocked by our own. -/
def KingStorm (blocked : Bool) (f d : Nat) : Score :=
  let t0 : List (List Score) :=
    [[S 1 23, S 114 (-11), S (-26) 24, S (-22) 10,
      S (-13) 2, S (-8) (-2), S (-18) 6, S (-22) (-2)],
     [S 0 45, S 57 11, S (-18) 23, S (-6) 11,
      S (-3) 4, S 5 (-4), S 0 0, S (-12) 0],
     [S 11 34, S 20 20, S (-24) 20, S (-13) 9,
      S 3 2, S 7 0, S 8 (-7), S 2 (-1)],
     [S 0 23, S 20 18, S (-13) 8, S (-15) 3,
      S (-13) 1, S 7 (-10), S 0 (-7), S (-14) 2]]
  let t1 : List (List Score) :=
    [[S 0 0, S (-11) (-13), S (-16) (-1), S 20 (-16),
      S 11 (-7), S 0 (-17), S (-7) 0, S 16 27],
     [S 0 0, S (-13) (-28), S (-7) (-10), S 32 (-13),
      S (-1) 0, S 10 (-22), S (-11) (-8), S (-15) 2],
     [S 0 0, S (-23) (-42), S (-30) (-8), S 9 (-10),
      S 2 (-1), S (-9) (-14), S (-13) (-13), S (-10) 5],
     [S 0 0, S (-1) (-14), S (-17) (-18), S (-11) (-3),
      S (-4) (-5), S 6 (-29), S 67 (-6), S 12 18]]
  tget ((if blocked then t1 else t0).getD f []) d

/-- King safety scalar `KSAttackWeight[]` (indexed by piece kind). -/
def KSAttackWeight : Piece → Int
  | .pawn => 0
  | .knight => 16
  | .bishop => 6
  | .rook => 10
  | .queen => 8
  | .king => 0

/-- King safety scalar `KSAttackValue`. -/
def KSAttackValue : Int := 44

/-- King safety scalar `KSWeakSquares`. -/
def KSWeakSquares : Int := 38

/-- King safety scalar `KSFriendlyPawns`. -/
def KSFriendlyPawns : Int := -22

/-- King safety scalar `KSNoEnemyQueens`. -/
def KSNoEnemyQueens : Int := -276

/-- King safety scalar `KSSafeQueenCheck`. -/
def KSSafeQueenCheck : Int := 95

/-- King safety scalar `KSSafeRookCheck`. -/
def KSSafeRookCheck : Int := 94

/-- King safety scalar `KSSafeBishopCheck`. -/
def KSSafeBishopCheck : Int := 51

/-- King safety scalar `KSSafeKnightCheck`. -/
def KSSafeKnightCheck : Int := 123

/-- King safety scalar `KSAdjustment`. -/
def KSAdjustment : Int := -18

/-- Passed pawn table `PassedPawn[2][2][RANK_NB]`, indexed by
`[canAdvance][safeAdvance][rank]`. -/
def PassedPawn (canAdvance safeAdvance : Bool) (rank : Nat) : Score :=
  tget
    (match canAdvance, safeAdvance with
     | false, false =>
        [S 0 0, S (-38) 0, S (-53) 22, S (-83) 26,
         S (-6) 16, S 66 0, S 152 59, S 0 0]
     | false, true =>
        [S 0 0, S (-26) 1, S (-46) 20, S (-71) 25,
         S (-13) 27, S 84 27, S 183 94, S 0 0]
     | true, false =>
        [S 0 0, S (-25) 10, S (-47) 17, S (-74) 32,
         S (-2) 34, S 88 41, S 258 123, S 0 0]
     | true, true =>
        [S 0 0, S (-28) 6, S (-40) 13, S (-65) 35,
         S (-3) 58, S 76 140, S 156 302, S 0 0])
    rank

/-- Passed pawn term `PassedFriendlyDistance[RANK_NB]`. -/
def PassedFriendlyDistance (rank : Nat) : Score :=
  tget
    [S 0 0, S 0 0, S 3 (-3), S 7 (-11),
     S 6 (-16), S (-6) (-16), S (-13) (-11), S 0 0] rank

/-- Passed pawn term `PassedEnemyDistance[RANK_NB]`. -/
def PassedEnemyDistance (rank : Nat) : Score :=
  tget
    [S 0 0, S 3 0, S 4 1, S 8 10,
     S 1 25, S 8 34, S 24 37, S 0 0] rank

/-- Passed pawn term `PassedSafePromotionPath`. -/
def PassedSafePromotionPath : Score := S (-27) 36

/-- Threat term `ThreatWeakPawn`. -/
def ThreatWeakPawn : Score := S (-14) (-28)

/-- Threat term `ThreatMinorAttackedByPawn`. -/
def ThreatMinorAttackedByPawn : Score := S (-56) (-47)

/-- Threat term `ThreatMinorAttackedByMinor`. -/
def ThreatMinorAttackedByMinor : Score := S (-28) (-35)

/-- Threat term `ThreatMinorAttackedByMajor`. -/
def ThreatMinorAttackedByMajor : Score := S (-25) (-44)

/-- Threat term `ThreatRookAttackedByLesser`. -/
def ThreatRookAttackedByLesser : Score := S (-58) (-10)

/-- Threat term `ThreatQueenAttackedByOne`. -/
def ThreatQueenAttackedByOne : Score := S (-48) (-15)

/-- Threat term `ThreatOverloadedPieces`. -/
def ThreatOverloadedPieces : Score := S (-8) (-16)

/-- Threat term `ThreatByPawnPush`. -/
def ThreatByPawnPush : Score := S 16 20

/-- The `Tempo[COLOUR_NB]` bonus for the side to move. -/
def Tempo : Colour → Score
  | .white => S 25 12
  | .black => S (-25) (-12)

/-- Modelled from the spec: the endgame scale factors live in
`evaluate.h`, which is not among the given sources; the spec fixes only
that `SCALE_NORMAL` is the common divisor and that the numerators are
tuning constants, so representative published values are used here. -/
def SCALE_OCB_BISHOPS_ONLY : Int := 64

/-- Modelled from the spec: see `SCALE_OCB_BISHOPS_ONLY`. -/
def SCALE_OCB_ONE_KNIGHT : Int := 106

/-- Modelled from the spec: see `SCALE_OCB_BISHOPS_ONLY`. -/
def SCALE_OCB_ONE_ROOK : Int := 96

/-- Modelled from the spec: see `SCALE_OCB_BISHOPS_ONLY`. -/
def SCALE_NORMAL : Int := 128

/-- Quarter-board PSQT `PawnPSQT32[32]` of `psqt.c`. -/
def PawnPSQT32 (i : Nat) : Score :=
  tget
    [S 0 0, S 0 0, S 0 0, S 0 0,
     S (-15) 11, S 9 2, S (-14) 5, S (-10) (-3),
     S (-17) 4, S (-12) 5, S (-7) (-10), S (-5) (-18),
     S (-17) 19, S (-10) 14, S 18 (-17), S 15 (-35),
     S (-3) 24, S 4 13, S 6 (-2), S 21 (-29),
     S (-8) 41, S (-9) 37, S (-1) 17, S 29 (-11),
     S (-13) (-15), S (-78) 17, S 25 (-25), S 49 (-27),
     S 0 0, S 0 0, S 0 0, S 0 0] i

/-- Quarter-board PSQT `KnightPSQT32[32]` of `psqt.c`. -/
def KnightPSQT32 (i : Nat) : Score :=
  tget
    [S (-72) (-10), S (-16) (-48), S (-25) (-25), S (-10) (-28),
     S (-13) (-11), S 1 (-24), S (-12) (-33), S 0 (-25),
     S (-6) (-26), S 14 (-30), S 5 (-29), S 13 (-7),
     S 13 7, S 8 11, S 20 14, S 18 24,
     S 24 22, S 21 10, S 33 26, S 20 43,
     S (-11) 20, S 0 11, S 36 24, S 12 38,
     S 1 9, S (-24) 12, S 11 (-10), S 70 6,
     S (-144) (-2), S (-62) 24, S (-107) 43, S (-19) 23] i

/-- Quarter-board PSQT `BishopPSQT32[32]` of `psqt.c`. -/
def BishopPSQT32 (i : Nat) : Score :=
  tget
    [S 13 (-15), S 15 (-22), S (-20) (-6), S 5 (-13),
     S 27 (-27), S 19 (-28), S 18 (-14), S 3 (-6),
     S 11 (-6), S 24 (-12), S 11 (-3), S 14 0,
     S 7 (-10), S 15 0, S 12 8, S 11 14,
     S (-19) 10, S 14 5, S (-1) 14, S 2 23,
     S 1 2, S (-11) 23, S 10 15, S 15 15,
     S (-43) 17, S (-50) 13, S (-2) 13, S (-30) 11,
     S (-33) 14, S (-36) 20, S (-94) 24, S (-118) 31] i

/-- Quarter-board PSQT `RookPSQT32[32]` of `psqt.c`. -/
def RookPSQT32 (i : Nat) : Score :=
  tget
    [S (-8) (-36), S (-21) (-20), S (-6) (-27), S 0 (-36),
     S (-71) (-17), S (-25) (-34), S (-20) (-35), S (-11) (-39),
     S (-27) (-21), S (-9) (-16), S (-30) (-18), S (-13) (-25),
     S (-14) (-4), S (-11) 13, S (-21) 7, S (-9) 2,
     S (-5) 23, S 17 23, S 12 14, S 26 8,
     S (-17) 37, S 12 29, S (-14) 37, S 16 19,
     S (-5) 24, S (-24) 36, S (-14) 27, S 12 25,
     S 40 26, S 36 32, S 23 39, S (-4) 43] i

/-- Quarter-board PSQT `QueenPSQT32[32]` of `psqt.c`. -/
def QueenPSQT32 (i : Nat) : Score :=
  tget
    [S 13 (-82), S (-26) (-27), S (-9) (-60), S 2 (-48),
     S 6 (-28), S 16 (-65), S 17 (-86), S 1 (-19),
     S (-2) (-16), S 14 (-21), S (-3) 4, S (-7) (-3),
     S 0 (-8), S (-1) 27, S (-17) 35, S (-32) 80,
     S (-4) (-4), S (-20) 56, S (-34) 43, S (-46) 92,
     S (-35) 31, S (-38) 45, S (-45) 50, S (-21) 32,
     S (-15) 41, S (-69) 82, S (-33) 41, S (-45) 66,
     S (-1) 41, S (-3) 44, S (-12) 35, S 8 41] i

/-- Quarter-board PSQT `KingPSQT32[32]` of `psqt.c`. -/
def KingPSQT32 (i : Nat) : Score :=
  tget
    [S 50 (-110), S 50 (-75), S 4 (-44), S (-4) (-62),
     S 32 (-49), S 1 (-43), S (-27) (-17), S (-32) (-18),
     S 11 (-49), S 13 (-41), S 8 (-15), S (-9) (-2),
     S (-6) (-38), S 60 (-35), S 23 5, S (-33) 18,
     S (-3) (-5), S 88 (-16), S 35 24, S (-13) 31,
     S 61 (-2), S 120 (-1), S 99 30, S 47 25,
     S 17 (-3), S 51 12, S 28 29, S 2 15,
     S 15 (-94), S 79 (-50), S (-13) (-1), S (-17) 18] i

/-- The quarter-board table for each piece kind. -/
def piecePSQT32 : Piece → Nat → Score
  | .pawn => PawnPSQT32
  | .knight => KnightPSQT32
  | .bishop => BishopPSQT32
  | .rook => RookPSQT32
  | .queen => QueenPSQT32
  | .king => KingPSQT32

/-- The `relativeSquare32` index of `psqt.c`:
`4·relativeRank + edgeDistance[file]` with `edgeDistance = {0,1,2,3,3,2,1,0}`. -/
def relativeSquare32 (s : Square) (c : Colour) : Nat :=
  4 * relativeRankOf c s + min (fileOf s) (7 - fileOf s)

/-- The full `PSQT[piece][square]` table built by `psqt.c` (white entries
positive, black entries negated and rank-mirrored via the black
relative-square index). -/
def PSQT (c : Colour) (p : Piece) (s : Square) : Score :=
  match c with
  | .white => PieceValues p + piecePSQT32 p (relativeSquare32 s .white)
  | .black => -(PieceValues p + piecePSQT32 p (relativeSquare32 s .black))

instance : Fintype Colour :=
  ⟨⟨{.white, .black}, by decide⟩, fun c => by cases c <;> decide⟩

/-- The board fields consumed by the evaluator (spec §3: occupancy per
side, per-kind bitboards, side to move, the incrementally maintained
PSQT+material total, and the pawn-king hash). -/
structure Board where
  colours : Colour → Bitboard
  pieces : Piece → Bitboard
  turn : Colour
  psqtmat : Score
  pkhash : Nat

/-- Modelled from the spec (§3, §4.9): a pawn-king cache entry
`{passedPawns, eval}` (the hash is the table key). -/
structure PawnKingEntry where
  passed : Bitboard
  eval : Score

/-- Modelled from the spec (§4.9): the pawn-king table, abstracted to the
lookup function `pkhash ↦ entry` it realises (`transposition.c` is not
among the given sources). -/
def PawnKingTable := Nat → Option PawnKingEntry

/-- Modelled from the spec (§4.9): `getPawnKingEntry`. -/
def getPawnKingEntry (t : PawnKingTable) (h : Nat) : Option PawnKingEntry := t h

/-- The read-only part of `EvalInfo` precomputed by `initializeEvalInfo`
(`evaluate.c` lines 897–935): attack spans, pawn relations, king areas,
mobility areas and x-ray occupancies. -/
structure EvalInit where
  pawnAttacks : Colour → Bitboard
  rammedPawns : Colour → Bitboard
  blockedPawns : Colour → Bitboard
  kingSquare : Colour → Square
  kingAreas : Colour → Bitboard
  mobilityAreas : Colour → Bitboard
  occupiedMinusBishops : Colour → Bitboard
  occupiedMinusRooks : Colour → Bitboard

/-- Own pawns of a colour. -/
def myPawnsOf (board : Board) (c : Colour) : Bitboard :=
  board.pieces .pawn ∩ board.colours c

/-- Enemy pawns of a colour. -/
def enemyPawnsOf (board : Board) (c : Colour) : Bitboard :=
  board.pieces .pawn ∩ board.colours c.flip

/-- The computations of `initializeEvalInfo` (lines 897–935); the C code
writes the white and the black instance of each line, here written once
over the colour.  The occupancy xors strip subsets, hence `\`. -/
def mkEvalInit (board : Board) : EvalInit :=
  let occ := board.colours .white ∪ board.colours .black
  let pA := fun c => pawnAttackSpan (myPawnsOf board c) Finset.univ c
  let blocked := fun c => pawnAdvance occ (myPawnsOf board c)ᶜ c.flip
  let kingSq := fun c => getlsb (board.colours c ∩ board.pieces .king)
  { pawnAttacks := pA
    rammedPawns := fun c => pawnAdvance (myPawnsOf board c.flip) (myPawnsOf board c)ᶜ c.flip
    blockedPawns := blocked
    kingSquare := kingSq
    kingAreas := fun c => kingAreaMasks c (kingSq c)
    mobilityAreas := fun c =>
      (pA c.flip ∪ (board.colours c ∩ board.pieces .king) ∪ blocked c)ᶜ
    occupiedMinusBishops := fun c =>
      occ \ (board.colours c ∩ (board.pieces .bishop ∪ board.pieces .queen))
    occupiedMinusRooks := fun c =>
      occ \ (board.colours c ∩ (board.pieces .rook ∪ board.pieces .queen)) }

/-- The per-side mutable part of `EvalInfo` threaded through the piece
evaluators: attack maps, the double-attack map, and the king-safety
counters. -/
structure SideState where
  attacked : Bitboard
  attackedBy : Piece → Bitboard
  attackedBy2 : Bitboard
  kingAttacksCount : Nat
  kingAttackersCount : Nat
  kingAttackersWeight : Int

/-- Pointwise update of a per-piece map. -/
def updFn (f : Piece → Bitboard) (p : Piece) (b : Bitboard) : Piece → Bitboard :=
  fun q => if q = p then b else f q

/-- The per-side state seeded by `initializeEvalInfo` (lines 928–929,
937–939): `attacked = attackedBy[KING] = kingAttacks(kingSq)`, counters
zero.  The other `attackedBy` slots are dead until their stage assigns
them, so they start empty. -/
def side0 (ini : EvalInit) (c : Colour) : SideState :=
  { attacked := kingAttacks (ini.kingSquare c)
    attackedBy := updFn (fun _ => ∅) .king (kingAttacks (ini.kingSquare c))
    attackedBy2 := ∅
    kingAttacksCount := 0
    kingAttackersCount := 0
    kingAttackersWeight := 0 }

/-- The attack-map and king-safety updates of `evaluatePawns`
(lines 331–337), performed before the cache test on both the hit and the
miss path. -/
def pawnsSide (ini : EvalInit) (c : Colour) (s : SideState) : SideState :=
  { s with
    attackedBy2 := ini.pawnAttacks c ∩ s.attacked
    attacked := s.attacked ∪ ini.pawnAttacks c
    attackedBy := updFn s.attackedBy .pawn (ini.pawnAttacks c)
    kingAttacksCount := s.kingAttacksCount + (ini.pawnAttacks c ∩ ini.kingAreas c.flip).card }

/-- Bitwise xor of bitboards (symmetric difference). -/
def xorBB (a b : Bitboard) : Bitboard := (a \ b) ∪ (b \ a)

/-- The `stoppers` set of a pawn (line 354). -/
def pawnStoppers (board : Board) (c : Colour) (sq : Square) : Bitboard :=
  enemyPawnsOf board c ∩ passedPawnMasks c sq

/-- The `threats` set of a pawn (line 355). -/
def pawnThreats (board : Board) (c : Colour) (sq : Square) : Bitboard :=
  enemyPawnsOf board c ∩ pawnAttacks c sq

/-- The `support` set of a pawn (line 356). -/
def pawnSupport (board : Board) (c : Colour) (sq : Square) : Bitboard :=
  myPawnsOf board c ∩ pawnAttacks c.flip sq

/-- The `pushThreats` set of a pawn (line 357): `pawnAttacks(US, sq + Forward)`. -/
def pawnPushThreats (board : Board) (c : Colour) (sq : Square) : Bitboard :=
  enemyPawnsOf board c ∩ pawnAttacksAt c (fi sq) (ri sq + dirOf c)

/-- The `pushSupport` set of a pawn (line 358): `pawnAttacks(THEM, sq + Forward)`. -/
def pawnPushSupport (board : Board) (c : Colour) (sq : Square) : Bitboard :=
  myPawnsOf board c ∩ pawnAttacksAt c.flip (fi sq) (ri sq + dirOf c)

/-- The `leftovers` set of a pawn (line 359): `stoppers ^ threats ^ pushThreats`. -/
def pawnLeftovers (board : Board) (c : Colour) (sq : Square) : Bitboard :=
  xorBB (xorBB (pawnStoppers board c sq) (pawnThreats board c sq)) (pawnPushThreats board c sq)

/-- The candidate-passer bonus of one pawn (lines 364–370): zero when the
pawn is passed (line 362 takes the first branch) and when the candidate
test fails. -/
def pawnCandidateTerm (board : Board) (c : Colour) (sq : Square) : Score :=
  if pawnStoppers board c sq = ∅ then 0
  else if pawnLeftovers board c sq = ∅ ∧
      (pawnPushThreats board c sq).card ≤ (pawnPushSupport board c sq).card then
    PawnCandidatePasser
      (decide ((pawnThreats board c sq).card ≤ (pawnSupport board c sq).card))
      (relativeRankOf c sq)
  else 0

/-- The isolated-pawn penalty of one pawn (lines 373–376). -/
def pawnIsolatedTerm (board : Board) (c : Colour) (sq : Square) : Score :=
  if adjacentFilesMasks (fileOf sq) ∩ myPawnsOf board c = ∅ then PawnIsolated else 0

/-- The stacked test of line 379: some pawn still in the iteration
(`tempPawns`, the strictly later own pawns) shares the file. -/
def stackedTest (rest : Bitboard) (sq : Square) : Prop :=
  (Files (fileOf sq) ∩ rest).Nonempty

instance (rest : Bitboard) (sq : Square) : Decidable (stackedTest rest sq) := by
  unfold stackedTest; infer_instance

/-- The stacked-pawn penalty of one pawn (lines 379–382). -/
def pawnStackedTerm (rest : Bitboard) (sq : Square) : Score :=
  if stackedTest rest sq then PawnStacked else 0

/-- The backward test of lines 385–386: no own pawn on the mirror
passed-pawn mask, and the advance square is attacked by an enemy pawn
(the advance square as a bitboard is `pawnAdvance({sq}, ∅, US)`). -/
def pawnBackwardCond (board : Board) (ini : EvalInit) (c : Colour) (sq : Square) : Prop :=
  passedPawnMasks c.flip sq ∩ myPawnsOf board c = ∅ ∧
  (pawnAdvance {sq} ∅ c ∩ ini.pawnAttacks c.flip).Nonempty

instance (board : Board) (ini : EvalInit) (c : Colour) (sq : Square) :
    Decidable (pawnBackwardCond board ini c sq) := by
  unfold pawnBackwardCond; infer_instance

/-- The backward penalty / connected bonus of one pawn (lines 385–396;
connected applies only when the pawn is not backward). -/
def pawnBackwardConnectedTerm (board : Board) (ini : EvalInit) (c : Colour) (sq : Square) : Score :=
  if pawnBackwardCond board ini c sq then
    PawnBackwards (decide (Files (fileOf sq) ∩ enemyPawnsOf board c = ∅))
  else if (pawnConnectedMasks c sq ∩ myPawnsOf board c).Nonempty then
    PawnConnected32 (relativeSquare32 sq c)
  else 0

/-- The `pkeval` contribution of one pawn in the miss-path loop of
`evaluatePawns` (lines 347–397); `rest` is the set of pawns still in the
iteration. -/
def pawnBody (board : Board) (ini : EvalInit) (c : Colour) (sq : Square) (rest : Bitboard) : Score :=
  pawnCandidateTerm board c sq + pawnIsolatedTerm board c sq +
  pawnStackedTerm rest sq + pawnBackwardConnectedTerm board ini c sq

/-- Ascending enumeration of a bitboard's squares — the order in which
`poplsb` pops them in the C `while` loops. -/
def squaresAsc (bb : Bitboard) : List Square :=
  (List.finRange 64).filter (fun s => s ∈ bb)

/-- The `while (tempPawns) { sq = poplsb(&tempPawns); … }` loop shape:
`poplsb` pops the least-significant (minimal) square, so each body sees
as `tempPawns` the set of strictly later pawns, i.e. the tail of the
ascending enumeration. -/
def pawnFoldL (body : Square → Bitboard → Score) : List Square → Score
  | [] => 0
  | sq :: rest => body sq rest.toFinset + pawnFoldL body rest

/-- The `evaluatePawns` miss-path loop over a pawn bitboard. -/
def pawnFold (body : Square → Bitboard → Score) (bb : Bitboard) : Score :=
  pawnFoldL body (squaresAsc bb)

/-- The pawn-structure subtotal accumulated into `ei->pkeval[US]` by the
miss-path loop of `evaluatePawns` (line 399). -/
def evaluatePawnsPkeval (board : Board) (ini : EvalInit) (c : Colour) : Score :=
  pawnFold (pawnBody board ini c) (myPawnsOf board c)

/-- The passed pawns recorded by the miss-path loop (line 362).  The flag
of each pawn is independent of the loop state, so the recorded squares
are exactly the stopper-free own pawns. -/
def passedPawnsOf (board : Board) (c : Colour) : Bitboard :=
  (myPawnsOf board c).filter (fun sq => pawnStoppers board c sq = ∅)

/-- The full `ei->passedPawns` set after both miss-path pawn evaluations. -/
def passedMiss (board : Board) : Bitboard :=
  passedPawnsOf board .white ∪ passedPawnsOf board .black

/-- One generic loop of `evaluateKnights` / `evaluateBishops` /
`evaluateRooks` / `evaluateQueens` — the four differ only in the attack
generator, the per-piece score terms and the `KSAttackWeight` entry.
Squares are popped in `poplsb` (minimum-first) order; the attack maps,
the double-attack map and the king-safety counters are threaded exactly
as in the C loop bodies.  One iteration's state update: the attack
and double-attack maps (first three statements of each C loop body), then
the king-safety counters guarded by `attacks & kingAreas[THEM]`. -/
def pieceStep (k : Piece) (attF : Square → Bitboard) (areaThem : Bitboard)
    (sq : Square) (s : SideState) : SideState :=
  let attacks := attF sq
  let s1 : SideState :=
    { s with
      attackedBy2 := s.attackedBy2 ∪ (attacks ∩ s.attacked)
      attacked := s.attacked ∪ attacks
      attackedBy := updFn s.attackedBy k (s.attackedBy k ∪ attacks) }
  let ka := attacks ∩ areaThem
  if ka.Nonempty then
    { s1 with
      kingAttacksCount := s1.kingAttacksCount + ka.card
      kingAttackersCount := s1.kingAttackersCount + 1
      kingAttackersWeight := s1.kingAttackersWeight + KSAttackWeight k }
  else s1

def pieceLoopL (k : Piece) (attF : Square → Bitboard) (scoreF : Square → Score)
    (areaThem : Bitboard) : List Square → SideState → Score × SideState
  | [], s => (0, s)
  | sq :: rest, s =>
    let r := pieceLoopL k attF scoreF areaThem rest (pieceStep k attF areaThem sq s)
    (scoreF sq + r.1, r.2)

/-- One piece evaluator's loop over a piece bitboard, in `poplsb` order. -/
def pieceLoop (k : Piece) (attF : Square → Bitboard) (scoreF : Square → Score)
    (areaThem : Bitboard) (bb : Bitboard) (s : SideState) : Score × SideState :=
  pieceLoopL k attF scoreF areaThem (squaresAsc bb) s

/-- The knight mobility count of line 446: `popcount(mobilityAreas[US] & attacks)`. -/
def knightMobCount (ini : EvalInit) (c : Colour) (sq : Square) : Nat :=
  (ini.mobilityAreas c ∩ knightAttacks sq).card

/-- The per-knight score terms of `evaluateKnights` (lines 430–448):
outpost, behind-pawn, mobility. -/
def knightScore (board : Board) (ini : EvalInit) (c : Colour) (sq : Square) : Score :=
  (if sq ∈ outpostRanksMasks c ∧ outpostSquareMasks c sq ∩ enemyPawnsOf board c = ∅ then
     KnightOutpost (decide (sq ∈ ini.pawnAttacks c))
   else 0)
  + (if sq ∈ pawnAdvance (board.pieces .pawn) ∅ c.flip then KnightBehindPawn else 0)
  + KnightMobility (knightMobCount ini c sq)

/-- The x-ray bishop attacks of line 490. -/
def bishopAttacksOf (ini : EvalInit) (c : Colour) (sq : Square) : Bitboard :=
  bishopAttacks sq (ini.occupiedMinusBishops c)

/-- The bishop mobility count of line 517. -/
def bishopMobCount (ini : EvalInit) (c : Colour) (sq : Square) : Nat :=
  (ini.mobilityAreas c ∩ bishopAttacksOf ini c sq).card

/-- The per-bishop score terms of `evaluateBishops` (lines 495–519):
rammed pawns, outpost, behind-pawn, mobility. -/
def bishopScore (board : Board) (ini : EvalInit) (c : Colour) (sq : Square) : Score :=
  (((ini.rammedPawns c ∩ (if sq ∈ WHITE_SQUARES then WHITE_SQUARES else BLACK_SQUARES)).card : Int)
      • BishopRammedPawns)
  + (if sq ∈ outpostRanksMasks c ∧ outpostSquareMasks c sq ∩ enemyPawnsOf board c = ∅ then
       BishopOutpost (decide (sq ∈ ini.pawnAttacks c))
     else 0)
  + (if sq ∈ pawnAdvance (myPawnsOf board c ∪ enemyPawnsOf board c) ∅ c.flip then
       BishopBehindPawn
     else 0)
  + BishopMobility (bishopMobCount ini c sq)

/-- The x-ray rook attacks of line 555. -/
def rookAttacksOf (ini : EvalInit) (c : Colour) (sq : Square) : Bitboard :=
  rookAttacks sq (ini.occupiedMinusRooks c)

/-- The rook mobility count of line 577. -/
def rookMobCount (ini : EvalInit) (c : Colour) (sq : Square) : Nat :=
  (ini.mobilityAreas c ∩ rookAttacksOf ini c sq).card

/-- The rook-on-seventh bonus of lines 570–574: relative rank 6 (from 0)
and the enemy king on relative rank at least 6. -/
def rookSeventhTerm (ini : EvalInit) (c : Colour) (sq : Square) : Score :=
  if relativeRankOf c sq = 6 ∧ 6 ≤ relativeRankOf c (ini.kingSquare c.flip) then
    RookOnSeventh
  else 0

/-- The per-rook score terms of `evaluateRooks` (lines 560–579):
open/semi-open file, seventh rank, mobility. -/
def rookScore (board : Board) (ini : EvalInit) (c : Colour) (sq : Square) : Score :=
  (if myPawnsOf board c ∩ Files (fileOf sq) = ∅ then
     RookFile (decide (enemyPawnsOf board c ∩ Files (fileOf sq) = ∅))
   else 0)
  + rookSeventhTerm ini c sq
  + RookMobility (rookMobCount ini c sq)

/-- The x-ray queen attacks of lines 613–614. -/
def queenAttacksOf (ini : EvalInit) (c : Colour) (sq : Square) : Bitboard :=
  rookAttacks sq (ini.occupiedMinusRooks c) ∪ bishopAttacks sq (ini.occupiedMinusBishops c)

/-- The queen mobility count of line 620. -/
def queenMobCount (ini : EvalInit) (c : Colour) (sq : Square) : Nat :=
  (ini.mobilityAreas c ∩ queenAttacksOf ini c sq).card

/-- The per-queen score term of `evaluateQueens` (lines 619–621). -/
def queenScore (ini : EvalInit) (c : Colour) (sq : Square) : Score :=
  QueenMobility (queenMobCount ini c sq)

/-- `evaluateKnights` for one colour, as score and updated side state. -/
def knightsRes (board : Board) (ini : EvalInit) (c : Colour) (s : SideState) : Score × SideState :=
  pieceLoop .knight knightAttacks (knightScore board ini c) (ini.kingAreas c.flip)
    (board.pieces .knight ∩ board.colours c) s

/-- `evaluateBishops` for one colour: the pair bonus of lines 476–479
plus the loop. -/
def bishopsRes (board : Board) (ini : EvalInit) (c : Colour) (s : SideState) : Score × SideState :=
  let tempBishops := board.pieces .bishop ∩ board.colours c
  let r := pieceLoop .bishop (bishopAttacksOf ini c) (bishopScore board ini c)
    (ini.kingAreas c.flip) tempBishops s
  ((if (tempBishops ∩ WHITE_SQUARES).Nonempty ∧ (tempBishops ∩ BLACK_SQUARES).Nonempty then
      BishopPair
    else 0) + r.1, r.2)

/-- `evaluateRooks` for one colour. -/
def rooksRes (board : Board) (ini : EvalInit) (c : Colour) (s : SideState) : Score × SideState :=
  pieceLoop .rook (rookAttacksOf ini c) (rookScore board ini c) (ini.kingAreas c.flip)
    (board.pieces .rook ∩ board.colours c) s

/-- `evaluateQueens` for one colour. -/
def queensRes (board : Board) (ini : EvalInit) (c : Colour) (s : SideState) : Score × SideState :=
  pieceLoop .queen (queenAttacksOf ini c) (queenScore ini c) (ini.kingAreas c.flip)
    (board.pieces .queen ∩ board.colours c) s

/-- Side state after the pawn stage.  The pawn, knight, bishop, rook and
queen evaluators touch only their own side's slots of `EvalInfo` and read
otherwise only `initializeEvalInfo` data, so the interleaved
white/black call order of `evaluatePieces` needs no bookkeeping. -/
def sideAfterPawns (board : Board) (c : Colour) : SideState :=
  pawnsSide (mkEvalInit board) c (side0 (mkEvalInit board) c)

/-- Side state after `evaluateKnights`. -/
def sideAfterKnights (board : Board) (c : Colour) : SideState :=
  (knightsRes board (mkEvalInit board) c (sideAfterPawns board c)).2

/-- Side state after `evaluateBishops`. -/
def sideAfterBishops (board : Board) (c : Colour) : SideState :=
  (bishopsRes board (mkEvalInit board) c (sideAfterKnights board c)).2

/-- Side state after `evaluateRooks`. -/
def sideAfterRooks (board : Board) (c : Colour) : SideState :=
  (rooksRes board (mkEvalInit board) c (sideAfterBishops board c)).2

/-- Side state after `evaluateQueens` — the final attack maps consumed by
the king, passed-pawn and threat evaluators. -/
def sideAfterQueens (board : Board) (c : Colour) : SideState :=
  (queensRes board (mkEvalInit board) c (sideAfterRooks board c)).2

/-- The score returned by `evaluateKnights` for one colour. -/
def evaluateKnightsScore (board : Board) (c : Colour) : Score :=
  (knightsRes board (mkEvalInit board) c (sideAfterPawns board c)).1

/-- The score returned by `evaluateBishops` for one colour. -/
def evaluateBishopsScore (board : Board) (c : Colour) : Score :=
  (bishopsRes board (mkEvalInit board) c (sideAfterKnights board c)).1

/-- The score returned by `evaluateRooks` for one colour. -/
def evaluateRooksScore (board : Board) (c : Colour) : Score :=
  (rooksRes board (mkEvalInit board) c (sideAfterBishops board c)).1

/-- The score returned by `evaluateQueens` for one colour. -/
def evaluateQueensScore (board : Board) (c : Colour) : Score :=
  (queensRes board (mkEvalInit board) c (sideAfterRooks board c)).1

/-- The trigger of the king-safety danger computation (line 664):
`kingAttackersCount[THEM] > 1 - popcount(enemyQueens)` in C `int`
arithmetic. -/
def kingDangerActive (board : Board) (c : Colour) (their : SideState) : Prop :=
  1 - ((board.pieces .queen ∩ board.colours c.flip).card : Int) <
    (their.kingAttackersCount : Int)

instance (board : Board) (c : Colour) (their : SideState) :
    Decidable (kingDangerActive board c their) := by
  unfold kingDangerActive; infer_instance

/-- Truncation of a rational toward zero, the effect of C's float-to-int
conversion. -/
def ratTrunc (q : ℚ) : Int := Int.tdiv q.num q.den

/-- The raw danger count of lines 666–705.  The C code computes
`KSAttackValue * scaledAttackCounts` in 32-bit floating point and
truncates on the assignment to `int`; following the spec's §9
recommendation of a bit-exact fixed-point substitute, the scaling is
modelled in exact arithmetic with the same final truncation. -/
def kingDangerCount (board : Board) (ini : EvalInit) (c : Colour) (own their : SideState) : Int :=
  let kingSq := ini.kingSquare c
  let myPawns := myPawnsOf board c
  let enemyQueens := board.pieces .queen ∩ board.colours c.flip
  let weak := their.attacked ∩ own.attackedBy2ᶜ ∩
      (own.attackedᶜ ∪ own.attackedBy .queen ∪ own.attackedBy .king)
  let safe := (board.colours c.flip)ᶜ ∩
      (own.attackedᶜ ∪ (weak ∩ their.attackedBy2))
  let occupied := board.colours .white ∪ board.colours .black
  let knightThreats := knightAttacks kingSq
  let bishopThreats := bishopAttacks kingSq occupied
  let rookThreats := rookAttacks kingSq occupied
  let queenThreats := bishopThreats ∪ rookThreats
  let knightChecks := knightThreats ∩ safe ∩ their.attackedBy .knight
  let bishopChecks := bishopThreats ∩ safe ∩ their.attackedBy .bishop
  let rookChecks := rookThreats ∩ safe ∩ their.attackedBy .rook
  let queenChecks := queenThreats ∩ safe ∩ their.attackedBy .queen
  let base : Int := (their.kingAttackersCount : Int) * their.kingAttackersWeight
  let extra : Int :=
      KSWeakSquares * ((weak ∩ ini.kingAreas c).card : Int)
    + KSFriendlyPawns * ((myPawns ∩ ini.kingAreas c ∩ weakᶜ).card : Int)
    + KSNoEnemyQueens * (if enemyQueens = ∅ then 1 else 0)
    + KSSafeQueenCheck * (queenChecks.card : Int)
    + KSSafeRookCheck * (rookChecks.card : Int)
    + KSSafeBishopCheck * (bishopChecks.card : Int)
    + KSSafeKnightCheck * (knightChecks.card : Int)
    + KSAdjustment
  ratTrunc ((base : ℚ) +
    (KSAttackValue : ℚ) * (9 * (their.kingAttacksCount : ℚ) / (((ini.kingAreas c).card : ℚ))) +
    (extra : ℚ))

/-- The guarded danger contribution of lines 664–709 (zero when the
guard or the `count > 0` test fails; otherwise the negated quadratic
penalty). -/
def kingDangerTerm (board : Board) (ini : EvalInit) (c : Colour) (own their : SideState) : Score :=
  if kingDangerActive board c their then
    let count := kingDangerCount board ini c own their
    if 0 < count then
      -MakeScore (Int.tdiv (count * count) 720) (Int.tdiv count 20)
    else 0
  else 0

/-- The score returned by `evaluateKings` for one colour (lines 636–712):
the king-defenders bonus plus the guarded danger penalty.  The shelter
and storm terms go to `pkeval`, not to this return value. -/
def evaluateKingsScoreOf (board : Board) (ini : EvalInit) (c : Colour) (own their : SideState) : Score :=
  let myDefenders := (board.pieces .pawn ∩ board.colours c) ∪
      (board.pieces .knight ∩ board.colours c) ∪
      (board.pieces .bishop ∩ board.colours c)
  KingDefenders ((myDefenders ∩ ini.kingAreas c).card)
  + kingDangerTerm board ini c own their

/-- One file of the shelter/storm scan of `evaluateKings`
(lines 717–737). -/
def shelterStormFile (board : Board) (ini : EvalInit) (c : Colour) (f : Nat) : Score :=
  let kingSq := ini.kingSquare c
  let kr := rankOf kingSq
  let ours := myPawnsOf board c ∩ Files f ∩ forwardRanksMasks c kr
  let ourDist : Nat :=
    if ours = ∅ then 7 else ((kr : Int) - (rankOf (backmost c ours) : Int)).natAbs
  let theirs := enemyPawnsOf board c ∩ Files f ∩ forwardRanksMasks c kr
  let theirDist : Nat :=
    if theirs = ∅ then 7 else ((kr : Int) - (rankOf (backmost c theirs) : Int)).natAbs
  KingShelter (decide (f = fileOf kingSq)) f ourDist
  + KingStorm (decide (ourDist ≠ 7 ∧ (ourDist : Int) = (theirDist : Int) - 1))
      (mirrorFile f) theirDist

/-- The shelter/storm `pkeval` contribution of `evaluateKings`
(lines 714–737, miss path only): the files from `kingFile−1` to
`kingFile+1`, clamped to the board. -/
def kingShelterStorm (board : Board) (ini : EvalInit) (c : Colour) : Score :=
  (((List.range 8).filter (fun f =>
      fileOf (ini.kingSquare c) - 1 ≤ f ∧ f ≤ min 7 (fileOf (ini.kingSquare c) + 1))).map
    (shelterStormFile board ini c)).sum

/-- The score of one passed pawn (lines 753–781). -/
def passedPawnSquareScore (board : Board) (ini : EvalInit) (c : Colour)
    (theirAttacked : Bitboard) (sq : Square) : Score :=
  let occupied := board.colours .white ∪ board.colours .black
  let rank := relativeRankOf c sq
  let adv := pawnAdvance {sq} ∅ c
  PassedPawn (decide (adv ∩ occupied = ∅)) (decide (adv ∩ theirAttacked = ∅)) rank
  + (distanceBetween sq (ini.kingSquare c) : Int) • PassedFriendlyDistance rank
  + (distanceBetween sq (ini.kingSquare c.flip) : Int) • PassedEnemyDistance rank
  + (if forwardRanksMasks c (rankOf sq) ∩ Files (fileOf sq) ∩ theirAttacked = ∅ then
       PassedSafePromotionPath
     else 0)

/-- The score returned by `evaluatePassedPawns` for one colour
(lines 742–784), a sum of independent per-square terms. -/
def evaluatePassedPawnsScore (board : Board) (ini : EvalInit) (c : Colour)
    (passed theirAttacked : Bitboard) : Score :=
  ∑ sq ∈ board.colours c ∩ passed, passedPawnSquareScore board ini c theirAttacked sq

/-- The score returned by `evaluateThreats` for one colour
(lines 786–864). -/
def evaluateThreatsScore (board : Board) (c : Colour) (own their : SideState) : Score :=
  let friendly := board.colours c
  let enemy := board.colours c.flip
  let occupied := friendly ∪ enemy
  let pawns := friendly ∩ board.pieces .pawn
  let knights := friendly ∩ board.pieces .knight
  let bishops := friendly ∩ board.pieces .bishop
  let rooks := friendly ∩ board.pieces .rook
  let queens := friendly ∩ board.pieces .queen
  let attacksByPawns := their.attackedBy .pawn
  let attacksByMinors := their.attackedBy .knight ∪ their.attackedBy .bishop
  let attacksByMajors := their.attackedBy .rook ∪ their.attackedBy .queen
  let poorlyDefended := (their.attacked ∩ own.attackedᶜ) ∪
      (their.attackedBy2 ∩ own.attackedBy2ᶜ ∩ (own.attackedBy .pawn)ᶜ)
  let overloaded := (knights ∪ bishops ∪ rooks ∪ queens) ∩
      own.attacked ∩ own.attackedBy2ᶜ ∩ their.attacked ∩ their.attackedBy2ᶜ
  let rank3Rel := if c = .white then Ranks 2 else Ranks 5
  let push1 := pawnAdvance pawns occupied c
  let push2 := push1 ∪ pawnAdvance (push1 ∩ attacksByPawnsᶜ ∩ rank3Rel) occupied c
  let push3 := push2 ∩ attacksByPawnsᶜ ∩ (own.attacked ∪ their.attackedᶜ)
  let pushThreat := pawnAttackSpan push3 (enemy ∩ (own.attackedBy .pawn)ᶜ) c
  ((pawns ∩ attacksByPawnsᶜ ∩ poorlyDefended).card : Int) • ThreatWeakPawn
  + (((knights ∪ bishops) ∩ attacksByPawns).card : Int) • ThreatMinorAttackedByPawn
  + (((knights ∪ bishops) ∩ attacksByMinors).card : Int) • ThreatMinorAttackedByMinor
  + (((knights ∪ bishops) ∩ poorlyDefended ∩ attacksByMajors).card : Int) • ThreatMinorAttackedByMajor
  + ((rooks ∩ (attacksByPawns ∪ attacksByMinors)).card : Int) • ThreatRookAttackedByLesser
  + ((queens ∩ their.attacked).card : Int) • ThreatQueenAttackedByOne
  + (overloaded.card : Int) • ThreatOverloadedPieces
  + (pushThreat.card : Int) • ThreatByPawnPush

/-- `evaluateKings`' return score for one colour in the pipeline. -/
def evaluateKingsScore (board : Board) (c : Colour) : Score :=
  evaluateKingsScoreOf board (mkEvalInit board) c (sideAfterQueens board c)
    (sideAfterQueens board c.flip)

/-- The `ei->passedPawns` set consumed by `evaluatePassedPawns`: the
cache entry's set on a hit (line 942), the loop-recorded set on a miss. -/
def passedPawnsFinal (board : Board) (pe : Option PawnKingEntry) : Bitboard :=
  match pe with
  | some e => e.passed
  | none => passedMiss board

/-- `evaluatePassedPawns`' return score for one colour in the pipeline. -/
def evaluatePassedScore (board : Board) (pe : Option PawnKingEntry) (c : Colour) : Score :=
  evaluatePassedPawnsScore board (mkEvalInit board) c (passedPawnsFinal board pe)
    ((sideAfterQueens board c.flip).attacked)

/-- `evaluateThreats`' return score for one colour in the pipeline. -/
def evaluateThreatsScoreOf (board : Board) (c : Colour) : Score :=
  evaluateThreatsScore board c (sideAfterQueens board c) (sideAfterQueens board c.flip)

/-- `evaluatePieces` (lines 291–320): the white-minus-black totals of the
eight sub-evaluators.  `evaluatePawns` always returns score 0 (its terms
go to `pkeval`), so its difference is omitted. -/
def evaluatePieces (board : Board) (pe : Option PawnKingEntry) : Score :=
  (evaluateKnightsScore board .white - evaluateKnightsScore board .black)
  + (evaluateBishopsScore board .white - evaluateBishopsScore board .black)
  + (evaluateRooksScore board .white - evaluateRooksScore board .black)
  + (evaluateQueensScore board .white - evaluateQueensScore board .black)
  + (evaluateKingsScore board .white - evaluateKingsScore board .black)
  + (evaluatePassedScore board pe .white - evaluatePassedScore board pe .black)
  + (evaluateThreatsScoreOf board .white - evaluateThreatsScoreOf board .black)

/-- The final `ei->pkeval[c]`: on a cache hit the restored values
(lines 943–944, entry value for white, zero for black, shelter skipped);
on a miss the pawn-loop subtotal plus the shelter/storm contribution. -/
def pkevalFinal (board : Board) (pe : Option PawnKingEntry) (c : Colour) : Score :=
  match pe with
  | some e => if c = .white then e.eval else 0
  | none =>
      evaluatePawnsPkeval board (mkEvalInit board) c +
        kingShelterStorm board (mkEvalInit board) c

/-- The raw material phase of lines 270–273 (note: the code has no
clamping). -/
def rawPhase (board : Board) : Int :=
  24 - 4 * ((board.pieces .queen).card : Int)
     - 2 * ((board.pieces .rook).card : Int)
     - 1 * (((board.pieces .knight ∪ board.pieces .bishop)).card : Int)

/-- The remapped game phase of line 274, used in the final blend. -/
def gamePhase (board : Board) : Int :=
  Int.tdiv (rawPhase board * 256 + 12) 24

/-- `evaluateScaleFactor` (lines 867–895). -/
def evaluateScaleFactor (board : Board) : Int :=
  let w := board.colours .white
  let b := board.colours .black
  let knights := board.pieces .knight
  let bishops := board.pieces .bishop
  let rooks := board.pieces .rook
  let queens := board.pieces .queen
  if onlyOne (w ∩ bishops) ∧ onlyOne (b ∩ bishops) ∧ onlyOne (bishops ∩ WHITE_SQUARES) then
    if knights ∪ rooks ∪ queens = ∅ then SCALE_OCB_BISHOPS_ONLY
    else if rooks ∪ queens = ∅ ∧ onlyOne (w ∩ knights) ∧ onlyOne (b ∩ knights) then
      SCALE_OCB_ONE_KNIGHT
    else if knights ∪ queens = ∅ ∧ onlyOne (w ∩ rooks) ∧ onlyOne (b ∩ rooks) then
      SCALE_OCB_ONE_ROOK
    else SCALE_NORMAL
  else SCALE_NORMAL

/-- The cache entry visible to one evaluation (line 941). -/
def pkentryOf (board : Board) (pkt : Option PawnKingTable) : Option PawnKingEntry :=
  match pkt with
  | none => none
  | some t => getPawnKingEntry t board.pkhash

/-- The white-perspective total of lines 264–267: piece evaluations, the
pawn-king subtotal difference, the incrementally maintained
PSQT+material total, and the tempo bonus for the side to move. -/
def whiteEval (board : Board) (pe : Option PawnKingEntry) : Score :=
  evaluatePieces board pe +
    (pkevalFinal board pe .white - pkevalFinal board pe .black) +
    board.psqtmat + Tempo board.turn

/-- The interpolated and scaled evaluation of lines 280–281. -/
def blendedEval (board : Board) (pe : Option PawnKingEntry) : Int :=
  Int.tdiv
    (ScoreMG (whiteEval board pe) * (256 - gamePhase board) +
      Int.tdiv (ScoreEG (whiteEval board pe) * gamePhase board * evaluateScaleFactor board)
        SCALE_NORMAL)
    256

/-- `evaluateBoard` (lines 258–289): the blended white-perspective total,
negated when black is to move. -/
def evaluateBoard (board : Board) (pkt : Option PawnKingTable) : Int :=
  let e := blendedEval board (pkentryOf board pkt)
  if board.turn = .white then e else -e

/-- The pawn-king entry written back on a miss (lines 283–285): the final
passed-pawn set and the white-minus-black `pkeval` difference computed at
line 266. -/
def storedEntry (board : Board) : PawnKingEntry :=
  { passed := passedMiss board
    eval := pkevalFinal board none .white - pkevalFinal board none .black }

/-- The from-scratch PSQT+material total over all pieces on the board,
which the externally maintained `board.psqtmat` equals on legal boards
(spec §3: "invariant: equals what the evaluator would compute from
scratch"). -/
def psqtFromScratch (board : Board) : Score :=
  ∑ c : Colour, ∑ p : Piece, ∑ sq ∈ board.pieces p ∩ board.colours c, PSQT c p sq

/-! ### Derived definitions for the stated claims -/

/-- The contents of `tempPawns` at the moment the loop processes `sq`:
the strictly later own pawns (squares are popped in ascending order). -/
def laterPawns (bb : Bitboard) (sq : Square) : Bitboard :=
  bb.filter (fun q => sq < q)

/-- The phase computation as claim C4 words it: the raw material phase
clamped to be non-negative before the remap. -/
def gamePhaseSpec (board : Board) : Int :=
  Int.tdiv (max 0 (rawPhase board) * 256 + 12) 24

/-- The scale-factor selection as the spec words it (§4.8): one bishop
each on opposite colour complexes, and the three material configurations
listed there. -/
def scaleFactorSpec (board : Board) : Int :=
  let w := board.colours .white
  let b := board.colours .black
  let knights := board.pieces .knight
  let bishops := board.pieces .bishop
  let rooks := board.pieces .rook
  let queens := board.pieces .queen
  if (w ∩ bishops).card = 1 ∧ (b ∩ bishops).card = 1 ∧
      (bishops ∩ WHITE_SQUARES).Nonempty ∧ (bishops ∩ BLACK_SQUARES).Nonempty then
    if knights = ∅ ∧ rooks = ∅ ∧ queens = ∅ then SCALE_OCB_BISHOPS_ONLY
    else if (w ∩ knights).card = 1 ∧ (b ∩ knights).card = 1 ∧ rooks = ∅ ∧ queens = ∅ then
      SCALE_OCB_ONE_KNIGHT
    else if (w ∩ rooks).card = 1 ∧ (b ∩ rooks).card = 1 ∧ knights = ∅ ∧ queens = ∅ then
      SCALE_OCB_ONE_ROOK
    else SCALE_NORMAL
  else SCALE_NORMAL

/-- A table warmed by a prior miss on the same position: its entry for
`board.pkhash` holds exactly what `storePawnKingEntry` stored
(lines 283–285). -/
def warmedTable (board : Board) : PawnKingTable :=
  fun h => if h = board.pkhash then some (storedEntry board) else none

/-- Bitboard from a list of square indices (for concrete positions). -/
def bbOf (l : List Nat) : Bitboard :=
  Finset.univ.filter (fun s => s.val ∈ l)

/-- The standard initial position (psqtmat and pkhash irrelevant to the
claims evaluated on it). -/
def startpos : Board :=
  { colours := fun c => match c with
      | .white => bbOf (List.range 16)
      | .black => bbOf ((List.range 16).map (fun i => 48 + i))
    pieces := fun p => match p with
      | .pawn => bbOf ((List.range 8).map (8 + ·) ++ (List.range 8).map (48 + ·))
      | .knight => bbOf [1, 6, 57, 62]
      | .bishop => bbOf [2, 5, 58, 61]
      | .rook => bbOf [0, 7, 56, 63]
      | .queen => bbOf [3, 59]
      | .king => bbOf [4, 60]
    turn := .white
    psqtmat := 0
    pkhash := 0 }

/-- Bare kings: white king b2, black king d5. -/
def bareKingsBoard : Board :=
  { colours := fun c => match c with
      | .white => bbOf [9]
      | .black => bbOf [35]
    pieces := fun p => match p with
      | .king => bbOf [9, 35]
      | _ => ∅
    turn := .white
    psqtmat := 0
    pkhash := 0 }

/-- A mirror-symmetric bare-kings board (kings e1/e8) without the
`psqtmat` invariant filled in. -/
def symmKingsBase : Board :=
  { colours := fun c => match c with
      | .white => bbOf [4]
      | .black => bbOf [60]
    pieces := fun p => match p with
      | .king => bbOf [4, 60]
      | _ => ∅
    turn := .white
    psqtmat := 0
    pkhash := 0 }

/-- The same board with `psqtmat` holding its documented from-scratch
invariant value, for exercising the colour-symmetry theorem. -/
def symmKingsBoard : Board :=
  { symmKingsBase with psqtmat := psqtFromScratch symmKingsBase }

/-- A legal-by-promotion board with seven white queens (a1–d1, f1–h1)
and kings e1/e8: raw material phase 24 − 28 = −4. -/
def promoQueensBoard : Board :=
  { colours := fun c => match c with
      | .white => bbOf [0, 1, 2, 3, 4, 5, 6, 7]
      | .black => bbOf [60]
    pieces := fun p => match p with
      | .queen => bbOf [0, 1, 2, 3, 5, 6, 7]
      | .king => bbOf [4, 60]
      | _ => ∅
    turn := .white
    psqtmat := 0
    pkhash := 0 }

/-- White king a1, black king h8, black queens g4 and h4: two enemy
queens, neither of which attacks the white king area. -/
def twoQueensBoard : Board :=
  { colours := fun c => match c with
      | .white => bbOf [0]
      | .black => bbOf [30, 31, 63]
    pieces := fun p => match p with
      | .queen => bbOf [30, 31]
      | .king => bbOf [0, 63]
      | _ => ∅
    turn := .white
    psqtmat := 0
    pkhash := 0 }

/-- White king a1, white rook a8 (relative rank 7 from 0), black king h8
(relative rank 7). -/
def rookEighthBoard : Board :=
  { colours := fun c => match c with
      | .white => bbOf [0, 56]
      | .black => bbOf [63]
    pieces := fun p => match p with
      | .rook => bbOf [56]
      | .king => bbOf [0, 63]
      | _ => ∅
    turn := .white
    psqtmat := 0
    pkhash := 0 }

/-- Opposite-coloured-bishops endgame: kings e1/e6, white bishop e2
(light), black bishop c5 (dark), no other non-pawn pieces. -/
def ocbBoard : Board :=
  { colours := fun c => match c with
      | .white => bbOf [4, 12]
      | .black => bbOf [34, 44]
    pieces := fun p => match p with
      | .bishop => bbOf [12, 34]
      | .king => bbOf [4, 44]
      | _ => ∅
    turn := .white
    psqtmat := 0
    pkhash := 0 }

/-- A pawn-structure test board: white pawns b2, b4, b6, c3, e2, black
pawns b7, c7, d5, kings e1/e8. -/
def pawnsBoard : Board :=
  { colours := fun c => match c with
      | .white => bbOf [9, 25, 41, 18, 12, 4]
      | .black => bbOf [49, 50, 35, 60]
    pieces := fun p => match p with
      | .pawn => bbOf [9, 25, 41, 18, 12, 49, 50, 35]
      | .king => bbOf [4, 60]
      | _ => ∅
    turn := .white
    psqtmat := 0
    pkhash := 0 }

/-- Vertical mirror of a square: same file, rank `7 − r`. -/
def flipSq (s : Square) : Square :=
  ⟨8 * (7 - rankOf s) + fileOf s, by
    unfold rankOf fileOf
    have := s.isLt
    omega⟩

/-- Vertical mirror of a bitboard. -/
def flipBB (b : Bitboard) : Bitboard := b.image flipSq

/-- The colour-mirrored twin P′ of claim C2: the board flipped
vertically, colours swapped and the side to move swapped; its `psqtmat`
is the correctly maintained PSQT+material total of the mirrored
placement (the invariant of spec §3).  `pkhash` is irrelevant to
cache-less evaluation. -/
def mirrorBoard (board : Board) : Board :=
  { colours := fun c => flipBB (board.colours c.flip)
    pieces := fun p => flipBB (board.pieces p)
    turn := board.turn.flip
    psqtmat := ∑ c : Colour, ∑ p : Piece,
      ∑ sq ∈ flipBB (board.pieces p) ∩ flipBB (board.colours c.flip), PSQT c p sq
    pkhash := board.pkhash }

/-- The mirror of a per-side evaluation state: all attack bitboards
flipped, the king-safety counters unchanged. -/
def mirrorSide (s : SideState) : SideState :=
  { attacked := flipBB s.attacked
    attackedBy := fun p => flipBB (s.attackedBy p)
    attackedBy2 := flipBB s.attackedBy2
    kingAttacksCount := s.kingAttacksCount
    kingAttackersCount := s.kingAttackersCount
    kingAttackersWeight := s.kingAttackersWeight }

/-- The evaluator's king precondition (spec §7): exactly one king per
side. -/
def oneKingEach (board : Board) : Prop :=
  ∀ c : Colour, (board.colours c ∩ board.pieces .king).card = 1

instance (board : Board) : Decidable (oneKingEach board) := by
  unfold oneKingEach; infer_instance

/-- The union of the attack sets of a list of pieces. -/
def unionAtt (attF : Square → Bitboard) : List Square → Bitboard
  | [] => ∅
  | x :: rest => attF x ∪ unionAtt attF rest

/-! ### Lemmas and claim theorems -/

/-- Claim C1: for every board and cache argument, `evaluateBoard` returns
the tapered blend `(mg·(256−phase) + eg·phase·scale/SCALE_NORMAL) / 256`
of the accumulated white-perspective score — the piece evaluations plus
the white-minus-black `pkeval` difference plus `board->psqtmat` plus the
`Tempo` term of the side to move — and the result is negated exactly
when the side to move is black. -/
theorem evaluateBoard_tapered_blend (board : Board) (pkt : Option PawnKingTable) :
    evaluateBoard board pkt =
      (let pe := pkentryOf board pkt
       let ev := evaluatePieces board pe +
         (pkevalFinal board pe .white - pkevalFinal board pe .black) +
         board.psqtmat + Tempo board.turn
       let raw := Int.tdiv
         (ScoreMG ev * (256 - gamePhase board) +
           Int.tdiv (ScoreEG ev * gamePhase board * evaluateScaleFactor board) SCALE_NORMAL)
         256
       if board.turn = .white then raw else -raw) := rfl

/-- Claim C4 counterexample: the code never clamps the raw phase, so a
board with seven queens (reachable by promotion) has raw phase −4 and
remapped phase −42, while the claimed clamped remap gives 0. -/
theorem gamePhase_no_clamp_counterexample :
    gamePhase promoQueensBoard ≠ gamePhaseSpec promoQueensBoard ∧
    gamePhase promoQueensBoard = -42 ∧ gamePhaseSpec promoQueensBoard = 0 := by
  decide

/-- Claim C4 as amended: the game phase used in the final blend is the
raw phase `24 − 4·Q − 2·R − popcount(N|B)` remapped as
`(phase·256 + 12) / 24` with C truncating division and no clamping; the
starting position yields remapped phase 0 and a bare-kings position the
remap of raw phase 24, namely 256. -/
theorem gamePhase_amended :
    (∀ board : Board,
      gamePhase board =
        Int.tdiv ((24 - 4 * ((board.pieces .queen).card : Int)
          - 2 * ((board.pieces .rook).card : Int)
          - 1 * (((board.pieces .knight ∪ board.pieces .bishop)).card : Int)) * 256 + 12) 24) ∧
    gamePhase startpos = 0 ∧ gamePhase bareKingsBoard = Int.tdiv (24 * 256 + 12) 24 ∧
    gamePhase bareKingsBoard = 256 := by
  exact ⟨fun board => rfl, by decide, by decide, by decide⟩

/-- Claim C9 counterexample: a white rook on a8 has relative rank 7
(counting from 0) and the black king on h8 has relative rank 7 ≥ 7, yet
the code (which tests `relativeRankOf(US, sq) == 6`) adds no bonus for
it, so the bonus is not added "iff the rook's relative rank is 7". -/
theorem rookSeventh_counterexample :
    relativeRankOf .white (56 : Square) = 7 ∧
    7 ≤ relativeRankOf .white ((mkEvalInit rookEighthBoard).kingSquare Colour.white.flip) ∧
    (56 : Square) ∈ rookEighthBoard.pieces .rook ∩ rookEighthBoard.colours .white ∧
    rookSeventhTerm (mkEvalInit rookEighthBoard) .white (56 : Square) = 0 := by
  decide

/-- Claim C9 as amended: the `RookOnSeventh` bonus is added for a rook
exactly when its relative rank is 6 counting from 0 (the seventh rank)
and the enemy king's relative rank is at least 6. -/
theorem rookSeventh_iff (ini : EvalInit) (c : Colour) (sq : Square) :
    (rookSeventhTerm ini c sq = RookOnSeventh ↔
      (relativeRankOf c sq = 6 ∧ 6 ≤ relativeRankOf c (ini.kingSquare c.flip))) ∧
    (rookSeventhTerm ini c sq = 0 ↔
      ¬(relativeRankOf c sq = 6 ∧ 6 ≤ relativeRankOf c (ini.kingSquare c.flip))) := by
  by_cases hc : relativeRankOf c sq = 6 ∧ 6 ≤ relativeRankOf c (ini.kingSquare c.flip) <;>
    simp only [rookSeventhTerm, hc, if_true, if_false, iff_true, iff_false, not_true,
      not_false_iff] <;> simp [hc] <;> decide

/-- Claim C5 counterexample: with two black queens that do not attack the
white king area, `kingAttackersCount[BLACK]` is 0 after the piece
evaluators, yet the danger guard `count > 1 − popcount(enemyQueens)`
(i.e. `0 > −1`) holds — the computation runs with zero attackers,
contradicting the claimed trigger `1 − (themHasQueen ? 1 : 0)`. -/
theorem kingDanger_zero_attackers_counterexample :
    kingDangerActive twoQueensBoard .white (sideAfterQueens twoQueensBoard .black) ∧
    (sideAfterQueens twoQueensBoard .black).kingAttackersCount = 0 := by
  decide

/-- Claim C5 as amended: the danger computation runs iff the enemy's
counted attackers exceed `1 − popcount(enemyQueens)` — two or more
attackers, or one attacker while the enemy has a queen, or (with any
number of attackers, zero included) two or more enemy queens. -/
theorem kingDangerActive_iff (board : Board) (c : Colour) (their : SideState) :
    kingDangerActive board c their ↔
      (2 ≤ their.kingAttackersCount ∨
        (1 ≤ their.kingAttackersCount ∧
          (board.pieces .queen ∩ board.colours c.flip).Nonempty) ∨
        2 ≤ (board.pieces .queen ∩ board.colours c.flip).card) := by
  unfold kingDangerActive
  rw [← Finset.card_pos]
  omega

/-- The knight attack set never exceeds 8 squares. -/
theorem knightAttacks_card_le (sq : Square) : (knightAttacks sq).card ≤ 8 := by
  revert sq; decide

/-- Diagonal rays from a square cover at most 13 other squares. -/
theorem bishopAttacks_card_le (sq : Square) (occ : Bitboard) :
    (bishopAttacks sq occ).card ≤ 13 := by
  have hsub : bishopAttacks sq occ ⊆
      Finset.univ.filter (fun t => t ≠ sq ∧
        (fi t - fi sq = ri t - ri sq ∨ fi t - fi sq = -(ri t - ri sq))) := by
    intro t ht
    simp only [bishopAttacks, Finset.mem_filter, Finset.mem_univ, true_and] at ht ⊢
    exact ⟨ht.1, ht.2.1⟩
  have hb : ∀ s : Square, (Finset.univ.filter (fun t => t ≠ s ∧
      (fi t - fi s = ri t - ri s ∨ fi t - fi s = -(ri t - ri s)))).card ≤ 13 := by
    decide
  exact le_trans (Finset.card_le_card hsub) (hb sq)

/-- Rook rays from a square cover at most 14 other squares. -/
theorem rookAttacks_card_le (sq : Square) (occ : Bitboard) :
    (rookAttacks sq occ).card ≤ 14 := by
  have hsub : rookAttacks sq occ ⊆
      Finset.univ.filter (fun t => t ≠ sq ∧ (fi t = fi sq ∨ ri t = ri sq)) := by
    intro t ht
    simp only [rookAttacks, Finset.mem_filter, Finset.mem_univ, true_and] at ht ⊢
    exact ⟨ht.1, ht.2.1⟩
  have hb : ∀ s : Square, (Finset.univ.filter (fun t => t ≠ s ∧
      (fi t = fi s ∨ ri t = ri s))).card ≤ 14 := by
    decide
  exact le_trans (Finset.card_le_card hsub) (hb sq)

/-- Claim C10: every mobility-table index
`popcount(mobilityAreas[us] & attacks)` stays within its table's bounds —
at most 8 for `KnightMobility[9]`, 13 for `BishopMobility[14]`, 14 for
`RookMobility[15]` and 27 for `QueenMobility[28]` — so no mobility lookup
reads out of bounds. -/
theorem mobility_index_bounds (ini : EvalInit) (c : Colour) (sq : Square) :
    knightMobCount ini c sq ≤ 8 ∧ bishopMobCount ini c sq ≤ 13 ∧
    rookMobCount ini c sq ≤ 14 ∧ queenMobCount ini c sq ≤ 27 := by
  refine ⟨?_, ?_, ?_, ?_⟩
  · exact le_trans (Finset.card_le_card Finset.inter_subset_right)
      (knightAttacks_card_le sq)
  · exact le_trans (Finset.card_le_card Finset.inter_subset_right)
      (bishopAttacks_card_le sq _)
  · exact le_trans (Finset.card_le_card Finset.inter_subset_right)
      (rookAttacks_card_le sq _)
  · refine le_trans (Finset.card_le_card Finset.inter_subset_right) ?_
    refine le_trans (Finset.card_union_le _ _) ?_
    have h1 := rookAttacks_card_le sq (ini.occupiedMinusRooks c)
    have h2 := bishopAttacks_card_le sq (ini.occupiedMinusBishops c)
    omega

/-- Claim C3: evaluating a position with no pawn-king cache and with a
cache whose entry for `board->pkhash` holds exactly what a prior miss on
the same position stored returns the identical score.  On the hit path
the restored `passedPawns` set and `pkeval` difference coincide with the
miss-path values by construction, and no other evaluation input depends
on the cache. -/
theorem pkCacheTransparent (board : Board) :
    evaluateBoard board none = evaluateBoard board (some (warmedTable board)) := by
  have hpe : pkentryOf board (some (warmedTable board)) = some (storedEntry board) := by
    simp [pkentryOf, getPawnKingEntry, warmedTable]
  unfold evaluateBoard
  rw [hpe]
  have h2 : blendedEval board (some (storedEntry board)) = blendedEval board none := by
    unfold blendedEval whiteEval
    have hpieces : evaluatePieces board (some (storedEntry board)) =
        evaluatePieces board none := rfl
    have hpk : pkevalFinal board (some (storedEntry board)) .white -
        pkevalFinal board (some (storedEntry board)) .black =
        pkevalFinal board none .white - pkevalFinal board none .black := by
      simp [pkevalFinal, storedEntry]
    rw [hpieces, hpk]
  rw [h2]
  rfl

/-- Claim C7: for a pawn processed on a cache miss, the passed case
(empty `stoppers`: square recorded, no candidate bonus) and the
candidate-passer case (nonempty `stoppers`, empty `leftovers`,
`|pushSupport| ≥ |pushThreats|`: the table bonus) are mutually exclusive
and behave exactly as the code's `if`/`else if` dictates. -/
theorem pawnPassedOrCandidate (board : Board) (c : Colour) (sq : Square)
    (hmem : sq ∈ myPawnsOf board c) :
    (sq ∈ passedPawnsOf board c ↔ pawnStoppers board c sq = ∅) ∧
    (pawnStoppers board c sq = ∅ → pawnCandidateTerm board c sq = 0) ∧
    (pawnStoppers board c sq ≠ ∅ → sq ∉ passedPawnsOf board c) ∧
    (pawnStoppers board c sq ≠ ∅ ∧ pawnLeftovers board c sq = ∅ ∧
        (pawnPushThreats board c sq).card ≤ (pawnPushSupport board c sq).card →
      pawnCandidateTerm board c sq =
        PawnCandidatePasser
          (decide ((pawnThreats board c sq).card ≤ (pawnSupport board c sq).card))
          (relativeRankOf c sq)) := by
  refine ⟨?_, ?_, ?_, ?_⟩
  · simp [passedPawnsOf, Finset.mem_filter, hmem]
  · intro h; simp [pawnCandidateTerm, h]
  · intro h; simp [passedPawnsOf, Finset.mem_filter, h]
  · rintro ⟨h1, h2, h3⟩; simp [pawnCandidateTerm, h1, h2, h3]

/-- Witness for claim C7 at a concrete pawn: the white pawn b2 of
`pawnsBoard`. -/
theorem pawnPassedOrCandidate_witness :
    (9 : Square) ∈ myPawnsOf pawnsBoard .white ∧
    (((9 : Square) ∈ passedPawnsOf pawnsBoard .white ↔
        pawnStoppers pawnsBoard .white 9 = ∅) ∧
      (pawnStoppers pawnsBoard .white 9 = ∅ →
        pawnCandidateTerm pawnsBoard .white 9 = 0) ∧
      (pawnStoppers pawnsBoard .white 9 ≠ ∅ →
        (9 : Square) ∉ passedPawnsOf pawnsBoard .white) ∧
      (pawnStoppers pawnsBoard .white 9 ≠ ∅ ∧ pawnLeftovers pawnsBoard .white 9 = ∅ ∧
          (pawnPushThreats pawnsBoard .white 9).card ≤
            (pawnPushSupport pawnsBoard .white 9).card →
        pawnCandidateTerm pawnsBoard .white 9 =
          PawnCandidatePasser
            (decide ((pawnThreats pawnsBoard .white 9).card ≤
              (pawnSupport pawnsBoard .white 9).card))
            (relativeRankOf .white 9))) :=
  ⟨by decide, pawnPassedOrCandidate pawnsBoard .white 9 (by decide)⟩

/-- The ascending square list is sorted. -/
theorem squaresAsc_sorted (bb : Bitboard) : (squaresAsc bb).Sorted (· < ·) :=
  List.Pairwise.filter _ (List.pairwise_lt_finRange 64)

/-- Membership in the ascending square list. -/
theorem mem_squaresAsc (bb : Bitboard) (a : Square) : a ∈ squaresAsc bb ↔ a ∈ bb := by
  simp [squaresAsc, List.mem_filter, List.mem_finRange]

/-- The ascending square list enumerates the bitboard. -/
theorem squaresAsc_toFinset (bb : Bitboard) : (squaresAsc bb).toFinset = bb := by
  ext a; simp [List.mem_toFinset, mem_squaresAsc]

/-- Unrolling a sorted pawn loop into a sum: each body call sees exactly
the strictly later squares. -/
theorem pawnFoldL_sorted_eq_sum (body : Square → Bitboard → Score) :
    ∀ l : List Square, l.Sorted (· < ·) →
      pawnFoldL body l =
        ∑ sq ∈ l.toFinset, body sq (l.toFinset.filter (fun q => sq < q)) := by
  intro l
  induction l with
  | nil => intro _; simp [pawnFoldL]
  | cons x t IH =>
    intro hl
    have hx : ∀ q ∈ t.toFinset, x < q := fun q hq =>
      List.rel_of_sorted_cons hl q (List.mem_toFinset.mp hq)
    have ht : t.Sorted (· < ·) := hl.of_cons
    have hxt : x ∉ t.toFinset := fun hmem => absurd (hx x hmem) (lt_irrefl x)
    simp only [pawnFoldL, List.toFinset_cons]
    rw [Finset.sum_insert hxt]
    have hhead : (insert x t.toFinset).filter (fun q => x < q) = t.toFinset := by
      ext q
      simp only [Finset.mem_filter, Finset.mem_insert]
      constructor
      · rintro ⟨hq | hq, hlt⟩
        · exact absurd (hq ▸ hlt) (lt_irrefl x)
        · exact hq
      · intro hq
        exact ⟨Or.inr hq, hx q hq⟩
    rw [hhead, IH ht]
    congr 1
    apply Finset.sum_congr rfl
    intro sq hsq
    have hxs : x < sq := hx sq hsq
    congr 1
    ext q
    simp only [Finset.mem_filter, Finset.mem_insert]
    constructor
    · rintro ⟨hq, hlt⟩
      exact ⟨Or.inr hq, hlt⟩
    · rintro ⟨hq | hq, hlt⟩
      · exact absurd (hq ▸ hlt) (asymm hxs)
      · exact ⟨hq, hlt⟩

/-- The `evaluatePawns` miss-path loop equals the sum of its per-pawn
bodies, each applied to the strictly later pawns — the contents of
`tempPawns` at that iteration. -/
theorem pawnFold_eq_sum (body : Square → Bitboard → Score) (bb : Bitboard) :
    pawnFold body bb = ∑ sq ∈ bb, body sq (laterPawns bb sq) := by
  unfold pawnFold laterPawns
  rw [pawnFoldL_sorted_eq_sum body _ (squaresAsc_sorted bb), squaresAsc_toFinset]

/-- Shared core for claim C8: on each file with `k ≥ 1` own pawns, the
stacked test over the strictly-later pawns fires exactly for the pawns
other than the file's topmost-in-iteration one. -/
theorem stackedFilter_eq (P : Bitboard) (f : Nat) (h : (P ∩ Files f).Nonempty) :
    (P ∩ Files f).filter (fun sq => stackedTest (laterPawns P sq) sq) =
      (P ∩ Files f).erase ((P ∩ Files f).max' h) := by
  set Sf := P ∩ Files f with hSf
  have hmax : Sf.max' h ∈ Sf := Sf.max'_mem h
  have hfileOf : ∀ sq ∈ Sf, fileOf sq = f := by
    intro sq hsq
    have := (Finset.mem_inter.mp hsq).2
    simpa [Files] using this
  have hfire : ∀ sq ∈ Sf,
      (stackedTest (laterPawns P sq) sq ↔ sq ≠ Sf.max' h) := by
    intro sq hsq
    constructor
    · rintro ⟨q, hq⟩ heq
      rw [Files, Finset.mem_inter, Finset.mem_filter] at hq
      obtain ⟨⟨-, hqfile⟩, hqlater⟩ := hq
      rw [laterPawns, Finset.mem_filter] at hqlater
      obtain ⟨hqP, hqlt⟩ := hqlater
      have hqSf : q ∈ Sf := by
        rw [hSf, Finset.mem_inter]
        refine ⟨hqP, ?_⟩
        rw [Files, Finset.mem_filter]
        exact ⟨Finset.mem_univ q, by rw [hqfile, hfileOf sq hsq]⟩
      have : q ≤ Sf.max' h := Sf.le_max' q hqSf
      rw [← heq] at this
      exact absurd hqlt (not_lt.mpr this)
    · intro hne
      refine ⟨Sf.max' h, ?_⟩
      rw [Files, Finset.mem_inter, Finset.mem_filter]
      have hmaxP : Sf.max' h ∈ P := (Finset.mem_inter.mp hmax).1
      have hlt : sq < Sf.max' h :=
        lt_of_le_of_ne (Sf.le_max' sq hsq) hne
      refine ⟨⟨Finset.mem_univ _, ?_⟩, ?_⟩
      · rw [hfileOf _ hmax, hfileOf sq hsq]
      · rw [laterPawns, Finset.mem_filter]
        exact ⟨hmaxP, hlt⟩
  ext sq
  rw [Finset.mem_filter, Finset.mem_erase]
  constructor
  · rintro ⟨hsq, hfireq⟩
    exact ⟨(hfire sq hsq).mp hfireq, hsq⟩
  · rintro ⟨hne, hsq⟩
    exact ⟨hsq, (hfire sq hsq).mpr hne⟩

/-- Shared core for claim C8: the per-file stacked total is
`(k − 1) • PawnStacked`. -/
theorem stackedSum_on_file (P : Bitboard) (f : Nat) (h : (P ∩ Files f).Nonempty) :
    (∑ sq ∈ P ∩ Files f, pawnStackedTerm (laterPawns P sq) sq) =
      ((P ∩ Files f).card - 1) • PawnStacked := by
  have hmax : (P ∩ Files f).max' h ∈ P ∩ Files f := (P ∩ Files f).max'_mem h
  have hsum : (∑ sq ∈ P ∩ Files f, pawnStackedTerm (laterPawns P sq) sq) =
      ∑ sq ∈ (P ∩ Files f).filter (fun sq => stackedTest (laterPawns P sq) sq),
        PawnStacked := by
    rw [Finset.sum_filter]
    apply Finset.sum_congr rfl
    intro sq _
    rfl
  rw [hsum, Finset.sum_const, stackedFilter_eq P f h, Finset.card_erase_of_mem hmax]

/-- Shared for claim C2: the stacked-pawn total of a whole pawn set
decomposes by file into the order-independent `(k − 1)` charges. -/
theorem stackedSum_decompose (P : Bitboard) :
    (∑ sq ∈ P, pawnStackedTerm (laterPawns P sq) sq) =
      ∑ f ∈ Finset.range 8,
        (if (P ∩ Files f).Nonempty then ((P ∩ Files f).card - 1) • PawnStacked else 0) := by
  have hmaps : ∀ sq ∈ P, fileOf sq ∈ Finset.range 8 := by
    intro sq _
    have : fileOf sq < 8 := Nat.mod_lt _ (by omega)
    simpa [Finset.mem_range] using this
  rw [← Finset.sum_fiberwise_of_maps_to hmaps
    (fun sq => pawnStackedTerm (laterPawns P sq) sq)]
  apply Finset.sum_congr rfl
  intro f _
  have hfilter : P.filter (fun sq => fileOf sq = f) = P ∩ Files f := by
    ext sq
    simp [Files, Finset.mem_inter, Finset.mem_filter]
  rw [hfilter]
  by_cases h : (P ∩ Files f).Nonempty
  · rw [if_pos h, stackedSum_on_file P f h]
  · rw [if_neg h, Finset.not_nonempty_iff_eq_empty.mp h, Finset.sum_empty]

/-- Claim C8: on a cache miss, the per-pawn stacked test ("some
later-processed own pawn shares the file") fires exactly `k − 1` times
for the `k ≥ 1` own pawns of a file, so that file is charged exactly
`(k − 1) × PawnStacked`; the loop itself (first conjunct) is the sum of
its per-pawn bodies over the later-pawn sets, so the total is
independent of iteration order artefacts. -/
theorem stackedPerFile (board : Board) (ini : EvalInit) (c : Colour) (f : Nat)
    (h : (myPawnsOf board c ∩ Files f).Nonempty) :
    evaluatePawnsPkeval board ini c =
      (∑ sq ∈ myPawnsOf board c,
        pawnBody board ini c sq (laterPawns (myPawnsOf board c) sq)) ∧
    ((myPawnsOf board c ∩ Files f).filter
        (fun sq => stackedTest (laterPawns (myPawnsOf board c) sq) sq)).card =
      (myPawnsOf board c ∩ Files f).card - 1 ∧
    (∑ sq ∈ myPawnsOf board c ∩ Files f,
        pawnStackedTerm (laterPawns (myPawnsOf board c) sq) sq) =
      ((myPawnsOf board c ∩ Files f).card - 1) • PawnStacked := by
  refine ⟨pawnFold_eq_sum _ _, ?_, stackedSum_on_file _ f h⟩
  rw [stackedFilter_eq _ f h,
    Finset.card_erase_of_mem ((myPawnsOf board c ∩ Files f).max'_mem h)]

/-- Witness for claim C8: file b of `pawnsBoard` carries three white
pawns (b2, b4, b6), so the stacked penalty on that file is charged
exactly twice. -/
theorem stackedPerFile_witness :
    (myPawnsOf pawnsBoard .white ∩ Files 1).Nonempty ∧
    (evaluatePawnsPkeval pawnsBoard (mkEvalInit pawnsBoard) .white =
      (∑ sq ∈ myPawnsOf pawnsBoard .white,
        pawnBody pawnsBoard (mkEvalInit pawnsBoard) .white sq
          (laterPawns (myPawnsOf pawnsBoard .white) sq)) ∧
    ((myPawnsOf pawnsBoard .white ∩ Files 1).filter
        (fun sq => stackedTest (laterPawns (myPawnsOf pawnsBoard .white) sq) sq)).card =
      (myPawnsOf pawnsBoard .white ∩ Files 1).card - 1 ∧
    (∑ sq ∈ myPawnsOf pawnsBoard .white ∩ Files 1,
        pawnStackedTerm (laterPawns (myPawnsOf pawnsBoard .white) sq) sq) =
      ((myPawnsOf pawnsBoard .white ∩ Files 1).card - 1) • PawnStacked) :=
  ⟨by decide, stackedPerFile pawnsBoard (mkEvalInit pawnsBoard) .white 1 (by decide)⟩

/-- Core of claim C6 (shared): on boards whose bishops sit on occupied
squares of the two disjoint colour occupancies, `evaluateScaleFactor`
equals the spec's case analysis.  The code detects "opposite complexes"
via `onlyOne(bishops & WHITE_SQUARES)`. -/
theorem scaleFactorSpec_eq (board : Board)
    (hdisj : Disjoint (board.colours .white) (board.colours .black))
    (hcover : board.pieces .bishop ⊆ board.colours .white ∪ board.colours .black) :
    evaluateScaleFactor board = scaleFactorSpec board := by
  have hWB : ∀ s : Square, s ∈ BLACK_SQUARES ↔ s ∉ WHITE_SQUARES := by decide
  unfold evaluateScaleFactor scaleFactorSpec onlyOne
  by_cases h1 : (board.colours .white ∩ board.pieces .bishop).card = 1
  case neg => simp [h1]
  by_cases h2 : (board.colours .black ∩ board.pieces .bishop).card = 1
  case neg => simp [h1, h2]
  have key : (board.pieces .bishop ∩ WHITE_SQUARES).card = 1 ↔
      ((board.pieces .bishop ∩ WHITE_SQUARES).Nonempty ∧
        (board.pieces .bishop ∩ BLACK_SQUARES).Nonempty) := by
    obtain ⟨x, hx⟩ := Finset.card_eq_one.mp h1
    obtain ⟨y, hy⟩ := Finset.card_eq_one.mp h2
    have hxmem : x ∈ board.colours .white ∩ board.pieces .bishop := by
      rw [hx]; exact Finset.mem_singleton_self x
    have hymem : y ∈ board.colours .black ∩ board.pieces .bishop := by
      rw [hy]; exact Finset.mem_singleton_self y
    have hxw := (Finset.mem_inter.mp hxmem).1
    have hxb := (Finset.mem_inter.mp hxmem).2
    have hyw := (Finset.mem_inter.mp hymem).1
    have hyb := (Finset.mem_inter.mp hymem).2
    have hxy : x ≠ y := by
      intro heq
      exact (Finset.disjoint_left.mp hdisj hxw) (heq ▸ hyw)
    have hynx : y ∉ ({x} : Bitboard) := by
      rw [Finset.mem_singleton]
      exact fun h => hxy h.symm
    have hxny : x ∉ ({y} : Bitboard) := by
      rw [Finset.mem_singleton]
      exact hxy
    have hbs : board.pieces .bishop = {x, y} := by
      ext s
      constructor
      · intro hs
        rcases Finset.mem_union.mp (hcover hs) with hw | hb
        · have hsx : s ∈ board.colours .white ∩ board.pieces .bishop :=
            Finset.mem_inter.mpr ⟨hw, hs⟩
          rw [hx, Finset.mem_singleton] at hsx
          simp [hsx]
        · have hsy : s ∈ board.colours .black ∩ board.pieces .bishop :=
            Finset.mem_inter.mpr ⟨hb, hs⟩
          rw [hy, Finset.mem_singleton] at hsy
          simp [hsy]
      · intro hs
        rcases Finset.mem_insert.mp hs with rfl | hs
        · exact hxb
        · rw [Finset.mem_singleton.mp hs]; exact hyb
    rw [hbs]
    by_cases hxW : x ∈ WHITE_SQUARES <;> by_cases hyW : y ∈ WHITE_SQUARES
    · have hxB : x ∉ BLACK_SQUARES := fun h => (hWB x).mp h hxW
      have hyB : y ∉ BLACK_SQUARES := fun h => (hWB y).mp h hyW
      rw [Finset.insert_inter_of_mem hxW, Finset.singleton_inter_of_mem hyW,
        Finset.insert_inter_of_not_mem hxB, Finset.singleton_inter_of_not_mem hyB]
      rw [Finset.card_insert_of_not_mem hxny]
      simp
    · have hxB : x ∉ BLACK_SQUARES := fun h => (hWB x).mp h hxW
      have hyB : y ∈ BLACK_SQUARES := (hWB y).mpr hyW
      rw [Finset.insert_inter_of_mem hxW, Finset.singleton_inter_of_not_mem hyW,
        Finset.insert_inter_of_not_mem hxB, Finset.singleton_inter_of_mem hyB]
      simp
    · have hxB : x ∈ BLACK_SQUARES := (hWB x).mpr hxW
      have hyB : y ∉ BLACK_SQUARES := fun h => (hWB y).mp h hyW
      rw [Finset.insert_inter_of_not_mem hxW, Finset.singleton_inter_of_mem hyW,
        Finset.insert_inter_of_mem hxB, Finset.singleton_inter_of_not_mem hyB]
      simp
    · have hxB : x ∈ BLACK_SQUARES := (hWB x).mpr hxW
      have hyB : y ∈ BLACK_SQUARES := (hWB y).mpr hyW
      rw [Finset.insert_inter_of_not_mem hxW, Finset.singleton_inter_of_not_mem hyW,
        Finset.insert_inter_of_mem hxB, Finset.singleton_inter_of_mem hyB]
      simp [Finset.card_insert_of_not_mem hynx]
  have i1 : (board.pieces .knight ∪ board.pieces .rook ∪ board.pieces .queen = ∅) ↔
      (board.pieces .knight = ∅ ∧ board.pieces .rook = ∅ ∧ board.pieces .queen = ∅) := by
    simp [Finset.union_eq_empty, and_assoc]
  have i2 : (board.pieces .rook ∪ board.pieces .queen = ∅ ∧
        (board.colours .white ∩ board.pieces .knight).card = 1 ∧
        (board.colours .black ∩ board.pieces .knight).card = 1) ↔
      ((board.colours .white ∩ board.pieces .knight).card = 1 ∧
        (board.colours .black ∩ board.pieces .knight).card = 1 ∧
        board.pieces .rook = ∅ ∧ board.pieces .queen = ∅) := by
    simp only [Finset.union_eq_empty]
    tauto
  have i3 : (board.pieces .knight ∪ board.pieces .queen = ∅ ∧
        (board.colours .white ∩ board.pieces .rook).card = 1 ∧
        (board.colours .black ∩ board.pieces .rook).card = 1) ↔
      ((board.colours .white ∩ board.pieces .rook).card = 1 ∧
        (board.colours .black ∩ board.pieces .rook).card = 1 ∧
        board.pieces .knight = ∅ ∧ board.pieces .queen = ∅) := by
    simp only [Finset.union_eq_empty]
    tauto
  by_cases h3 : (board.pieces .bishop ∩ WHITE_SQUARES).card = 1
  · have hA := key.mp h3
    have hc1 : (board.colours .white ∩ board.pieces .bishop).card = 1 ∧
        (board.colours .black ∩ board.pieces .bishop).card = 1 ∧
        (board.pieces .bishop ∩ WHITE_SQUARES).card = 1 := ⟨h1, h2, h3⟩
    have hc2 : (board.colours .white ∩ board.pieces .bishop).card = 1 ∧
        (board.colours .black ∩ board.pieces .bishop).card = 1 ∧
        (board.pieces .bishop ∩ WHITE_SQUARES).Nonempty ∧
        (board.pieces .bishop ∩ BLACK_SQUARES).Nonempty := ⟨h1, h2, hA.1, hA.2⟩
    rw [if_pos hc1, if_pos hc2]
    simp only [i1, i2, i3]
  · have hnA : ¬((board.pieces .bishop ∩ WHITE_SQUARES).Nonempty ∧
        (board.pieces .bishop ∩ BLACK_SQUARES).Nonempty) := fun hc => h3 (key.mpr hc)
    rw [if_neg (fun hc => h3 hc.2.2), if_neg (fun hc => hnA ⟨hc.2.2.1, hc.2.2.2⟩)]


/-- Claim C6: on boards whose bishops sit on occupied squares of the two
disjoint colour occupancies (a precondition of the external board
representation), `evaluateScaleFactor` selects exactly the scale factor
the spec describes: `SCALE_OCB_BISHOPS_ONLY` for one bishop each on
opposite colour complexes and no other non-pawn pieces,
`SCALE_OCB_ONE_KNIGHT` / `SCALE_OCB_ONE_ROOK` for the same bishops plus
exactly one knight / rook per side and nothing else, and `SCALE_NORMAL`
in every other case. -/
theorem scaleFactor_matches_spec (board : Board)
    (hdisj : Disjoint (board.colours .white) (board.colours .black))
    (hcover : board.pieces .bishop ⊆ board.colours .white ∪ board.colours .black) :
    evaluateScaleFactor board = scaleFactorSpec board :=
  scaleFactorSpec_eq board hdisj hcover

/-- Witness for claim C6 at a concrete board: the opposite-coloured
bishops endgame `ocbBoard` (where both sides get `SCALE_OCB_BISHOPS_ONLY`). -/
theorem scaleFactor_matches_spec_witness :
    Disjoint (ocbBoard.colours .white) (ocbBoard.colours .black) ∧
    ocbBoard.pieces .bishop ⊆ ocbBoard.colours .white ∪ ocbBoard.colours .black ∧
    evaluateScaleFactor ocbBoard = scaleFactorSpec ocbBoard ∧
    evaluateScaleFactor ocbBoard = SCALE_OCB_BISHOPS_ONLY :=
  ⟨by decide, by decide, scaleFactor_matches_spec ocbBoard (by decide) (by decide),
    by decide⟩

/-! ### Mirror geometry -/

@[simp]
theorem Colour.flip_flip : ∀ c : Colour, c.flip.flip = c := by
  intro c; cases c <;> rfl

theorem fileOf_flipSq : ∀ s : Square, fileOf (flipSq s) = fileOf s := by decide

theorem rankOf_flipSq : ∀ s : Square, rankOf (flipSq s) = 7 - rankOf s := by decide

theorem fi_flipSq : ∀ s : Square, fi (flipSq s) = fi s := by decide

theorem ri_flipSq : ∀ s : Square, ri (flipSq s) = 7 - ri s := by decide

theorem rankOf_le_seven : ∀ s : Square, rankOf s ≤ 7 := by decide

@[simp]
theorem flipSq_flipSq : ∀ s : Square, flipSq (flipSq s) = s := by decide

theorem flipSq_inj : Function.Injective flipSq := fun a b h => by
  rw [← flipSq_flipSq a, h, flipSq_flipSq]

theorem flipSq_eq_iff {a b : Square} : flipSq a = b ↔ a = flipSq b := by
  constructor
  · rintro rfl; rw [flipSq_flipSq]
  · rintro rfl; rw [flipSq_flipSq]

theorem mem_flipBB {t : Square} {b : Bitboard} : t ∈ flipBB b ↔ flipSq t ∈ b := by
  constructor
  · intro h
    obtain ⟨u, hu, rfl⟩ := Finset.mem_image.mp h
    rwa [flipSq_flipSq]
  · intro h
    exact Finset.mem_image.mpr ⟨flipSq t, h, flipSq_flipSq t⟩

@[simp]
theorem flipBB_flipBB (b : Bitboard) : flipBB (flipBB b) = b := by
  ext t; rw [mem_flipBB, mem_flipBB, flipSq_flipSq]

theorem flipBB_empty : flipBB ∅ = ∅ := Finset.image_empty _

theorem flipBB_inter (a b : Bitboard) : flipBB (a ∩ b) = flipBB a ∩ flipBB b := by
  ext t; simp [mem_flipBB, Finset.mem_inter]

theorem flipBB_union (a b : Bitboard) : flipBB (a ∪ b) = flipBB a ∪ flipBB b := by
  ext t; simp [mem_flipBB, Finset.mem_union]

theorem flipBB_compl (a : Bitboard) : flipBB aᶜ = (flipBB a)ᶜ := by
  ext t; simp [mem_flipBB, Finset.mem_compl]

theorem flipBB_sdiff (a b : Bitboard) : flipBB (a \ b) = flipBB a \ flipBB b := by
  ext t; simp [mem_flipBB, Finset.mem_sdiff]

theorem flipBB_singleton (x : Square) : flipBB {x} = {flipSq x} :=
  Finset.image_singleton _ _

theorem card_flipBB (a : Bitboard) : (flipBB a).card = a.card :=
  Finset.card_image_of_injective _ flipSq_inj

theorem flipBB_nonempty {a : Bitboard} : (flipBB a).Nonempty ↔ a.Nonempty := by
  unfold flipBB
  exact Finset.image_nonempty

theorem flipBB_eq_empty {a : Bitboard} : flipBB a = ∅ ↔ a = ∅ := by
  constructor
  · intro h
    rw [← flipBB_flipBB a, h, flipBB_empty]
  · rintro rfl; exact flipBB_empty

theorem flipBB_univ : flipBB Finset.univ = Finset.univ := by
  ext t; simp [mem_flipBB]

theorem sum_flipBB {M : Type} [AddCommMonoid M] (b : Bitboard) (g : Square → M) :
    (∑ x ∈ flipBB b, g x) = ∑ x ∈ b, g (flipSq x) :=
  Finset.sum_image (fun x _ y _ h => flipSq_inj h)

theorem filter_flipBB (b : Bitboard) (p : Square → Prop) [DecidablePred p] :
    (flipBB b).filter p = flipBB (b.filter (fun x => p (flipSq x))) := by
  ext t
  simp only [Finset.mem_filter, mem_flipBB]
  rw [flipSq_flipSq]

theorem flipBB_sup (b : Bitboard) (g : Square → Bitboard) :
    flipBB (b.sup g) = b.sup (fun x => flipBB (g x)) := by
  induction b using Finset.induction_on with
  | empty => simp [flipBB_empty]
  | insert hx ih =>
    rw [Finset.sup_insert, Finset.sup_insert]
    rw [show ∀ u v : Bitboard, u ⊔ v = u ∪ v from fun u v => rfl,
      show ∀ u v : Bitboard, u ⊔ v = u ∪ v from fun u v => rfl,
      flipBB_union, ih]

theorem flipBB_Files (f : Nat) : flipBB (Files f) = Files f := by
  ext t
  simp only [mem_flipBB, Files, Finset.mem_filter, Finset.mem_univ, true_and]
  rw [fileOf_flipSq]

theorem flipBB_Ranks (r : Nat) (hr : r ≤ 7) : flipBB (Ranks r) = Ranks (7 - r) := by
  ext t
  simp only [mem_flipBB, Ranks, Finset.mem_filter, Finset.mem_univ, true_and]
  rw [rankOf_flipSq]
  have := rankOf_le_seven t
  omega

theorem flipBB_adjacentFiles (f : Nat) :
    flipBB (adjacentFilesMasks f) = adjacentFilesMasks f := by
  ext t
  simp only [mem_flipBB, adjacentFilesMasks, Finset.mem_filter, Finset.mem_univ, true_and]
  rw [fileOf_flipSq]

theorem flipBB_WHITE_SQUARES : flipBB WHITE_SQUARES = BLACK_SQUARES := by decide

theorem flipBB_BLACK_SQUARES : flipBB BLACK_SQUARES = WHITE_SQUARES := by decide

theorem distanceBetween_flip (a b : Square) :
    distanceBetween (flipSq a) (flipSq b) = distanceBetween a b := by
  unfold distanceBetween
  rw [fi_flipSq, fi_flipSq, ri_flipSq, ri_flipSq]
  congr 1
  have ha := rankOf_le_seven a
  have hb := rankOf_le_seven b
  unfold ri
  omega

theorem relativeRankOf_flip : ∀ (c : Colour) (s : Square),
    relativeRankOf c.flip (flipSq s) = relativeRankOf c s := by decide

theorem relativeSquare32_flip (c : Colour) (s : Square) :
    relativeSquare32 (flipSq s) c.flip = relativeSquare32 s c := by
  unfold relativeSquare32
  rw [relativeRankOf_flip, fileOf_flipSq]

/-! ### Mirror lemmas for the bitboard primitives -/

theorem dirOf_flip : ∀ c : Colour, dirOf c.flip = -dirOf c := by
  intro c; cases c <;> rfl

theorem exists_flipBB {bb : Bitboard} {Φ : Square → Prop} :
    (∃ p ∈ flipBB bb, Φ p) ↔ ∃ q ∈ bb, Φ (flipSq q) := by
  constructor
  · rintro ⟨p, hp, hΦ⟩
    exact ⟨flipSq p, mem_flipBB.mp hp, by rwa [flipSq_flipSq]⟩
  · rintro ⟨q, hq, hΦ⟩
    refine ⟨flipSq q, mem_flipBB.mpr ?_, hΦ⟩
    rwa [flipSq_flipSq]

theorem pawnAttacksAt_flip (c : Colour) (f r : Int) :
    pawnAttacksAt c.flip f (7 - r) = flipBB (pawnAttacksAt c f r) := by
  cases c <;>
  · ext t
    simp only [pawnAttacksAt, Finset.mem_filter, Finset.mem_univ, true_and, mem_flipBB,
      fi_flipSq, ri_flipSq, dirOf, Colour.flip]
    omega

theorem pawnAttacks_flip (c : Colour) (sq : Square) :
    pawnAttacks c.flip (flipSq sq) = flipBB (pawnAttacks c sq) := by
  unfold pawnAttacks
  rw [fi_flipSq, ri_flipSq]
  exact pawnAttacksAt_flip c (fi sq) (ri sq)

theorem pawnAttackSpan_flip (pawns mask : Bitboard) (c : Colour) :
    pawnAttackSpan (flipBB pawns) (flipBB mask) c.flip =
      flipBB (pawnAttackSpan pawns mask c) := by
  ext t
  simp only [pawnAttackSpan, Finset.mem_filter, mem_flipBB]
  constructor
  · rintro ⟨h1, q, hq, h2⟩
    refine ⟨h1, flipSq q, hq, ?_⟩
    rw [← flipSq_flipSq q, pawnAttacks_flip] at h2
    exact mem_flipBB.mp h2
  · rintro ⟨h1, q, hq, h2⟩
    refine ⟨h1, flipSq q, by rwa [flipSq_flipSq], ?_⟩
    rw [pawnAttacks_flip]
    exact mem_flipBB.mpr h2

theorem pawnAdvance_flip (bb occ : Bitboard) (c : Colour) :
    pawnAdvance (flipBB bb) (flipBB occ) c.flip = flipBB (pawnAdvance bb occ c) := by
  cases c <;>
  · ext t
    simp only [pawnAdvance, Finset.mem_filter, Finset.mem_univ, true_and, mem_flipBB,
      fi_flipSq, ri_flipSq, dirOf, Colour.flip]
    constructor
    · rintro ⟨h1, q, hq, h2, h3⟩
      refine ⟨h1, flipSq q, hq, ?_, ?_⟩
      · rw [fi_flipSq]; exact h2
      · rw [ri_flipSq]; omega
    · rintro ⟨h1, q, hq, h2, h3⟩
      refine ⟨h1, flipSq q, by rwa [flipSq_flipSq], ?_, ?_⟩
      · rw [fi_flipSq]; exact h2
      · rw [ri_flipSq]; omega

theorem knightAttacks_flip (sq : Square) :
    knightAttacks (flipSq sq) = flipBB (knightAttacks sq) := by
  ext t
  simp only [knightAttacks, Finset.mem_filter, Finset.mem_univ, true_and, mem_flipBB,
    fi_flipSq, ri_flipSq]
  omega

theorem kingAttacks_flip (sq : Square) :
    kingAttacks (flipSq sq) = flipBB (kingAttacks sq) := by
  ext t
  simp only [kingAttacks, Finset.mem_filter, Finset.mem_univ, true_and, mem_flipBB,
    fi_flipSq, ri_flipSq]
  have h1 : (t = flipSq sq) ↔ (flipSq t = sq) := by
    constructor
    · rintro rfl; rw [flipSq_flipSq]
    · intro h; rw [← h, flipSq_flipSq]
  constructor
  · rintro ⟨ha, hb, hc⟩
    exact ⟨fun h => ha (h1.mpr h), hb, by omega⟩
  · rintro ⟨ha, hb, hc⟩
    exact ⟨fun h => ha (h1.mp h), hb, by omega⟩

theorem between_flip (a b : Square) :
    between (flipSq a) (flipSq b) = flipBB (between a b) := by
  ext u
  simp only [between, Finset.mem_filter, Finset.mem_univ, true_and, mem_flipBB,
    fi_flipSq, ri_flipSq]
  have e1 : (u = flipSq a) ↔ (flipSq u = a) := by
    constructor
    · rintro rfl; rw [flipSq_flipSq]
    · intro h; rw [← h, flipSq_flipSq]
  have e2 : (u = flipSq b) ↔ (flipSq u = b) := by
    constructor
    · rintro rfl; rw [flipSq_flipSq]
    · intro h; rw [← h, flipSq_flipSq]
  constructor
  · rintro ⟨h1, h2, h3, h4, h5⟩
    refine ⟨fun h => h1 (e1.mpr h), fun h => h2 (e2.mpr h), ?_, h4, ?_⟩
    · linear_combination -h3
    · exact le_of_eq_of_le (by ring) h5
  · rintro ⟨h1, h2, h3, h4, h5⟩
    refine ⟨fun h => h1 (e1.mp h), fun h => h2 (e2.mp h), ?_, h4, ?_⟩
    · linear_combination -h3
    · exact le_of_eq_of_le (by ring) h5

theorem bishopAttacks_flip (sq : Square) (occ : Bitboard) :
    bishopAttacks (flipSq sq) (flipBB occ) = flipBB (bishopAttacks sq occ) := by
  ext t
  simp only [bishopAttacks, Finset.mem_filter, Finset.mem_univ, true_and, mem_flipBB,
    fi_flipSq, ri_flipSq]
  have e1 : (t = flipSq sq) ↔ (flipSq t = sq) := by
    constructor
    · rintro rfl; rw [flipSq_flipSq]
    · intro h; rw [← h, flipSq_flipSq]
  have hbet : between (flipSq sq) t ∩ flipBB occ = ∅ ↔
      between sq (flipSq t) ∩ occ = ∅ := by
    constructor
    · intro h3
      have h3' : between (flipSq sq) (flipSq (flipSq t)) ∩ flipBB occ = ∅ := by
        rwa [flipSq_flipSq]
      rw [between_flip, ← flipBB_inter] at h3'
      exact flipBB_eq_empty.mp h3'
    · intro h3
      have : between (flipSq sq) (flipSq (flipSq t)) ∩ flipBB occ = ∅ := by
        rw [between_flip, ← flipBB_inter, flipBB_eq_empty]
        exact h3
      rwa [flipSq_flipSq] at this
  constructor
  · rintro ⟨h1, h2, h3⟩
    exact ⟨fun h => h1 (e1.mpr h), by omega, hbet.mp h3⟩
  · rintro ⟨h1, h2, h3⟩
    exact ⟨fun h => h1 (e1.mp h), by omega, hbet.mpr h3⟩

theorem rookAttacks_flip (sq : Square) (occ : Bitboard) :
    rookAttacks (flipSq sq) (flipBB occ) = flipBB (rookAttacks sq occ) := by
  ext t
  simp only [rookAttacks, Finset.mem_filter, Finset.mem_univ, true_and, mem_flipBB,
    fi_flipSq, ri_flipSq]
  have e1 : (t = flipSq sq) ↔ (flipSq t = sq) := by
    constructor
    · rintro rfl; rw [flipSq_flipSq]
    · intro h; rw [← h, flipSq_flipSq]
  have hbet : between (flipSq sq) t ∩ flipBB occ = ∅ ↔
      between sq (flipSq t) ∩ occ = ∅ := by
    constructor
    · intro h3
      have h3' : between (flipSq sq) (flipSq (flipSq t)) ∩ flipBB occ = ∅ := by
        rwa [flipSq_flipSq]
      rw [between_flip, ← flipBB_inter] at h3'
      exact flipBB_eq_empty.mp h3'
    · intro h3
      have : between (flipSq sq) (flipSq (flipSq t)) ∩ flipBB occ = ∅ := by
        rw [between_flip, ← flipBB_inter, flipBB_eq_empty]
        exact h3
      rwa [flipSq_flipSq] at this
  constructor
  · rintro ⟨h1, h2, h3⟩
    exact ⟨fun h => h1 (e1.mpr h), by omega, hbet.mp h3⟩
  · rintro ⟨h1, h2, h3⟩
    exact ⟨fun h => h1 (e1.mp h), by omega, hbet.mpr h3⟩

theorem passedPawnMasks_flip (c : Colour) (sq : Square) :
    passedPawnMasks c.flip (flipSq sq) = flipBB (passedPawnMasks c sq) := by
  cases c <;>
  · ext t
    simp only [passedPawnMasks, Finset.mem_filter, Finset.mem_univ, true_and, mem_flipBB,
      fi_flipSq, ri_flipSq, dirOf, Colour.flip]
    omega

theorem outpostRanksMasks_flip (c : Colour) :
    outpostRanksMasks c.flip = flipBB (outpostRanksMasks c) := by
  ext t
  simp only [outpostRanksMasks, Finset.mem_filter, Finset.mem_univ, true_and, mem_flipBB]
  rw [show relativeRankOf c (flipSq t) = relativeRankOf c.flip t from by
    rw [← relativeRankOf_flip c.flip t, Colour.flip_flip]]

theorem outpostSquareMasks_flip (c : Colour) (sq : Square) :
    outpostSquareMasks c.flip (flipSq sq) = flipBB (outpostSquareMasks c sq) := by
  unfold outpostSquareMasks
  rw [passedPawnMasks_flip, fileOf_flipSq, flipBB_sdiff, flipBB_Files]

theorem pawnConnectedMasks_flip (c : Colour) (sq : Square) :
    pawnConnectedMasks c.flip (flipSq sq) = flipBB (pawnConnectedMasks c sq) := by
  cases c <;>
  · ext t
    simp only [pawnConnectedMasks, Finset.mem_filter, Finset.mem_univ, true_and, mem_flipBB,
      fi_flipSq, ri_flipSq, dirOf, Colour.flip]
    omega

theorem forwardRanksMasks_flip (c : Colour) (r : Nat) (hr : r ≤ 7) :
    forwardRanksMasks c.flip (7 - r) = flipBB (forwardRanksMasks c r) := by
  cases c <;>
  · ext t
    simp only [forwardRanksMasks, Finset.mem_filter, Finset.mem_univ, true_and, mem_flipBB,
      ri_flipSq, dirOf, Colour.flip]
    have := rankOf_le_seven t
    unfold ri
    omega

theorem kingAreaMasks_flip (c : Colour) (sq : Square) :
    kingAreaMasks c.flip (flipSq sq) = flipBB (kingAreaMasks c sq) := by
  have hrel := relativeRankOf_flip c sq
  cases c <;>
  · ext t
    simp only [kingAreaMasks, Finset.mem_filter, Finset.mem_univ, true_and, mem_flipBB,
      fi_flipSq, ri_flipSq, dirOf, relativeRankOf, Colour.flip] at hrel ⊢
    rw [hrel]
    split_ifs with h0 <;> omega

/-! ### Mirror lemmas at board and eval-info level -/

theorem getlsb_singleton (x : Square) : getlsb {x} = x := by
  unfold getlsb
  rw [dif_pos ⟨x, Finset.mem_singleton_self x⟩, Finset.min'_singleton]

theorem sideState_eq {a b : SideState} (h1 : a.attacked = b.attacked)
    (h2 : ∀ p, a.attackedBy p = b.attackedBy p) (h3 : a.attackedBy2 = b.attackedBy2)
    (h4 : a.kingAttacksCount = b.kingAttacksCount)
    (h5 : a.kingAttackersCount = b.kingAttackersCount)
    (h6 : a.kingAttackersWeight = b.kingAttackersWeight) : a = b := by
  cases a; cases b
  simp only [SideState.mk.injEq]
  exact ⟨h1, funext h2, h3, h4, h5, h6⟩

theorem myPawnsOf_mirror (board : Board) (c : Colour) :
    myPawnsOf (mirrorBoard board) c = flipBB (myPawnsOf board c.flip) := by
  unfold myPawnsOf mirrorBoard
  rw [flipBB_inter]

theorem enemyPawnsOf_mirror (board : Board) (c : Colour) :
    enemyPawnsOf (mirrorBoard board) c = flipBB (enemyPawnsOf board c.flip) := by
  unfold enemyPawnsOf mirrorBoard
  simp only [Colour.flip_flip]
  rw [flipBB_inter]

theorem occupied_mirror (board : Board) :
    (mirrorBoard board).colours .white ∪ (mirrorBoard board).colours .black =
      flipBB (board.colours .white ∪ board.colours .black) := by
  unfold mirrorBoard
  simp only [Colour.flip]
  rw [flipBB_union, Finset.union_comm]

theorem mkEvalInit_pawnAttacks (board : Board) (c : Colour) :
    (mkEvalInit board).pawnAttacks c =
      pawnAttackSpan (myPawnsOf board c) Finset.univ c := rfl

theorem mkEvalInit_rammedPawns (board : Board) (c : Colour) :
    (mkEvalInit board).rammedPawns c =
      pawnAdvance (myPawnsOf board c.flip) (myPawnsOf board c)ᶜ c.flip := rfl

theorem mkEvalInit_blockedPawns (board : Board) (c : Colour) :
    (mkEvalInit board).blockedPawns c =
      pawnAdvance (board.colours .white ∪ board.colours .black)
        (myPawnsOf board c)ᶜ c.flip := rfl

theorem mkEvalInit_kingSquare (board : Board) (c : Colour) :
    (mkEvalInit board).kingSquare c =
      getlsb (board.colours c ∩ board.pieces .king) := rfl

theorem mkEvalInit_kingAreas (board : Board) (c : Colour) :
    (mkEvalInit board).kingAreas c =
      kingAreaMasks c ((mkEvalInit board).kingSquare c) := rfl

theorem mkEvalInit_mobilityAreas (board : Board) (c : Colour) :
    (mkEvalInit board).mobilityAreas c =
      (pawnAttackSpan (myPawnsOf board c.flip) Finset.univ c.flip ∪
        (board.colours c ∩ board.pieces .king) ∪
        pawnAdvance (board.colours .white ∪ board.colours .black)
          (myPawnsOf board c)ᶜ c.flip)ᶜ := rfl

theorem mkEvalInit_occupiedMinusBishops (board : Board) (c : Colour) :
    (mkEvalInit board).occupiedMinusBishops c =
      (board.colours .white ∪ board.colours .black) \
        (board.colours c ∩ (board.pieces .bishop ∪ board.pieces .queen)) := rfl

theorem mkEvalInit_occupiedMinusRooks (board : Board) (c : Colour) :
    (mkEvalInit board).occupiedMinusRooks c =
      (board.colours .white ∪ board.colours .black) \
        (board.colours c ∩ (board.pieces .rook ∪ board.pieces .queen)) := rfl

theorem pawnAttacks_init_mirror (board : Board) (c : Colour) :
    (mkEvalInit (mirrorBoard board)).pawnAttacks c =
      flipBB ((mkEvalInit board).pawnAttacks c.flip) := by
  rw [mkEvalInit_pawnAttacks, mkEvalInit_pawnAttacks, myPawnsOf_mirror]
  conv_lhs => rw [show c = c.flip.flip from (Colour.flip_flip c).symm, ← flipBB_univ]
  rw [pawnAttackSpan_flip]
  simp only [Colour.flip_flip]

theorem rammedPawns_init_mirror (board : Board) (c : Colour) :
    (mkEvalInit (mirrorBoard board)).rammedPawns c =
      flipBB ((mkEvalInit board).rammedPawns c.flip) := by
  rw [mkEvalInit_rammedPawns, mkEvalInit_rammedPawns, myPawnsOf_mirror, myPawnsOf_mirror]
  simp only [Colour.flip_flip]
  rw [← flipBB_compl, pawnAdvance_flip]

theorem blockedPawns_init_mirror (board : Board) (c : Colour) :
    (mkEvalInit (mirrorBoard board)).blockedPawns c =
      flipBB ((mkEvalInit board).blockedPawns c.flip) := by
  rw [mkEvalInit_blockedPawns, mkEvalInit_blockedPawns, myPawnsOf_mirror, occupied_mirror]
  simp only [Colour.flip_flip]
  rw [← flipBB_compl]
  conv_lhs => rw [show c.flip = (c.flip.flip).flip from by simp only [Colour.flip_flip]]
  rw [pawnAdvance_flip]
  simp only [Colour.flip_flip]

theorem kingSquare_init_mirror (board : Board) (hk : oneKingEach board) (c : Colour) :
    (mkEvalInit (mirrorBoard board)).kingSquare c =
      flipSq ((mkEvalInit board).kingSquare c.flip) := by
  rw [mkEvalInit_kingSquare, mkEvalInit_kingSquare]
  obtain ⟨k, hke⟩ := Finset.card_eq_one.mp (hk c.flip)
  have : (mirrorBoard board).colours c ∩ (mirrorBoard board).pieces .king =
      flipBB (board.colours c.flip ∩ board.pieces .king) := by
    unfold mirrorBoard
    rw [flipBB_inter]
  rw [this, hke, flipBB_singleton, getlsb_singleton, getlsb_singleton]

theorem kingAreas_init_mirror (board : Board) (hk : oneKingEach board) (c : Colour) :
    (mkEvalInit (mirrorBoard board)).kingAreas c =
      flipBB ((mkEvalInit board).kingAreas c.flip) := by
  rw [mkEvalInit_kingAreas, mkEvalInit_kingAreas, kingSquare_init_mirror board hk c]
  conv_lhs => rw [show c = c.flip.flip from (Colour.flip_flip c).symm]
  rw [kingAreaMasks_flip]
  simp only [Colour.flip_flip]

theorem mobilityAreas_init_mirror (board : Board) (c : Colour) :
    (mkEvalInit (mirrorBoard board)).mobilityAreas c =
      flipBB ((mkEvalInit board).mobilityAreas c.flip) := by
  rw [mkEvalInit_mobilityAreas, mkEvalInit_mobilityAreas, myPawnsOf_mirror,
    myPawnsOf_mirror, occupied_mirror]
  simp only [Colour.flip_flip]
  have h1 : pawnAttackSpan (flipBB (myPawnsOf board c)) Finset.univ c.flip =
      flipBB (pawnAttackSpan (myPawnsOf board c) Finset.univ c) := by
    conv_lhs => rw [← flipBB_univ]
    exact pawnAttackSpan_flip _ _ c
  have h2 : (mirrorBoard board).colours c ∩ (mirrorBoard board).pieces .king =
      flipBB (board.colours c.flip ∩ board.pieces .king) := by
    unfold mirrorBoard
    rw [flipBB_inter]
  have h3 : pawnAdvance (flipBB (board.colours .white ∪ board.colours .black))
      (flipBB (myPawnsOf board c.flip))ᶜ c.flip =
      flipBB (pawnAdvance (board.colours .white ∪ board.colours .black)
        (myPawnsOf board c.flip)ᶜ c) := by
    rw [← flipBB_compl]
    exact pawnAdvance_flip _ _ c
  rw [h1, h2, h3]
  rw [← flipBB_union, ← flipBB_union, ← flipBB_compl]

theorem occupiedMinusBishops_init_mirror (board : Board) (c : Colour) :
    (mkEvalInit (mirrorBoard board)).occupiedMinusBishops c =
      flipBB ((mkEvalInit board).occupiedMinusBishops c.flip) := by
  rw [mkEvalInit_occupiedMinusBishops, mkEvalInit_occupiedMinusBishops, occupied_mirror]
  unfold mirrorBoard
  simp only
  rw [← flipBB_union, ← flipBB_inter, ← flipBB_sdiff]

theorem occupiedMinusRooks_init_mirror (board : Board) (c : Colour) :
    (mkEvalInit (mirrorBoard board)).occupiedMinusRooks c =
      flipBB ((mkEvalInit board).occupiedMinusRooks c.flip) := by
  rw [mkEvalInit_occupiedMinusRooks, mkEvalInit_occupiedMinusRooks, occupied_mirror]
  unfold mirrorBoard
  simp only
  rw [← flipBB_union, ← flipBB_inter, ← flipBB_sdiff]

theorem pieceStep_comm (k : Piece) (attF : Square → Bitboard) (area : Bitboard)
    (a b : Square) (s : SideState) :
    pieceStep k attF area a (pieceStep k attF area b s) =
      pieceStep k attF area b (pieceStep k attF area a s) := by
  simp only [pieceStep]
  split_ifs <;>
    refine sideState_eq ?_ (fun p => ?_) ?_ ?_ ?_ ?_ <;>
    simp only [updFn] <;>
    first
      | omega
      | (ext x
         simp only [Finset.mem_union, Finset.mem_inter]
         tauto)
      | (split_ifs <;>
          first
            | rfl
            | (ext x
               simp only [Finset.mem_union, Finset.mem_inter]
               tauto))

theorem pieceLoopL_perm (k : Piece) (attF : Square → Bitboard) (scoreF : Square → Score)
    (area : Bitboard) {l l' : List Square} (h : l.Perm l') (s : SideState) :
    pieceLoopL k attF scoreF area l s = pieceLoopL k attF scoreF area l' s := by
  induction h generalizing s with
  | nil => rfl
  | cons x h ih =>
      simp only [pieceLoopL]
      rw [ih]
  | swap x y l =>
      simp only [pieceLoopL]
      rw [pieceStep_comm]
      exact Prod.ext (by rw [add_left_comm]) rfl
  | trans h1 h2 ih1 ih2 => rw [ih1, ih2]

theorem pieceStep_mirror (k : Piece) (attF attF2 : Square → Bitboard) (area : Bitboard)
    (x : Square) (s : SideState)
    (hatt : ∀ y, attF2 (flipSq y) = flipBB (attF y)) :
    pieceStep k attF2 (flipBB area) (flipSq x) (mirrorSide s) =
      mirrorSide (pieceStep k attF area x s) := by
  simp only [pieceStep, hatt, mirrorSide, ← flipBB_inter, flipBB_nonempty, card_flipBB]
  split_ifs with h <;>
    refine sideState_eq ?_ (fun p => ?_) ?_ ?_ ?_ ?_ <;>
    simp only [mirrorSide, updFn, flipBB_union, flipBB_inter] <;>
    split_ifs <;> simp only [flipBB_union, flipBB_inter]

theorem pieceLoopL_mirror_map (k : Piece) (attF attF2 : Square → Bitboard)
    (scoreF scoreF2 : Square → Score) (area : Bitboard)
    (hatt : ∀ y, attF2 (flipSq y) = flipBB (attF y)) :
    ∀ (l : List Square), (∀ y ∈ l, scoreF2 (flipSq y) = scoreF y) → ∀ (s : SideState),
    pieceLoopL k attF2 scoreF2 (flipBB area) (l.map flipSq) (mirrorSide s) =
      ((pieceLoopL k attF scoreF area l s).1,
        mirrorSide (pieceLoopL k attF scoreF area l s).2)
  | [], _, s => rfl
  | x :: rest, hscore, s => by
      simp only [List.map_cons, pieceLoopL]
      rw [pieceStep_mirror k attF attF2 area x s hatt,
        pieceLoopL_mirror_map k attF attF2 scoreF scoreF2 area hatt rest
          (fun y hy => hscore y (List.mem_cons_of_mem _ hy)),
        hscore x (List.mem_cons_self _ _)]

theorem squaresAsc_nodup (bb : Bitboard) : (squaresAsc bb).Nodup :=
  (List.nodup_finRange 64).filter _

theorem squaresAsc_flipBB_perm (bb : Bitboard) :
    (squaresAsc (flipBB bb)).Perm ((squaresAsc bb).map flipSq) := by
  apply List.perm_of_nodup_nodup_toFinset_eq (squaresAsc_nodup _)
    ((squaresAsc_nodup bb).map flipSq_inj)
  rw [squaresAsc_toFinset]
  ext x
  simp only [List.mem_toFinset, List.mem_map, mem_flipBB]
  constructor
  · intro hx
    exact ⟨flipSq x, (mem_squaresAsc bb _).mpr hx, flipSq_flipSq x⟩
  · rintro ⟨y, hy, rfl⟩
    rw [flipSq_flipSq]
    exact (mem_squaresAsc bb y).mp hy

theorem flipSq_mem_flipBB (s : Square) (b : Bitboard) : flipSq s ∈ flipBB b ↔ s ∈ b := by
  rw [mem_flipBB, flipSq_flipSq]

theorem mirrorBoard_pieces (board : Board) (p : Piece) :
    (mirrorBoard board).pieces p = flipBB (board.pieces p) := rfl

theorem mirrorBoard_colours (board : Board) (c : Colour) :
    (mirrorBoard board).colours c = flipBB (board.colours c.flip) := rfl

theorem pawnAdvance_flip_empty (bb : Bitboard) (c : Colour) :
    pawnAdvance (flipBB bb) ∅ c.flip = flipBB (pawnAdvance bb ∅ c) := by
  conv_lhs => rw [← flipBB_empty]
  exact pawnAdvance_flip bb ∅ c

theorem side0_mirror (board : Board) (hk : oneKingEach board) (c : Colour) :
    side0 (mkEvalInit (mirrorBoard board)) c.flip =
      mirrorSide (side0 (mkEvalInit board) c) := by
  unfold side0
  rw [kingSquare_init_mirror board hk]
  simp only [Colour.flip_flip, kingAttacks_flip]
  refine sideState_eq ?_ (fun p => ?_) ?_ ?_ ?_ ?_
  · rfl
  · simp only [mirrorSide, updFn]
    split_ifs <;> simp only [flipBB_empty]
  · simp only [mirrorSide, flipBB_empty]
  · rfl
  · rfl
  · rfl

theorem pawnsSide_mirror (board : Board) (hk : oneKingEach board) (c : Colour) (s : SideState) :
    pawnsSide (mkEvalInit (mirrorBoard board)) c.flip (mirrorSide s) =
      mirrorSide (pawnsSide (mkEvalInit board) c s) := by
  unfold pawnsSide
  rw [pawnAttacks_init_mirror, kingAreas_init_mirror board hk]
  simp only [Colour.flip_flip]
  refine sideState_eq ?_ (fun p => ?_) ?_ ?_ ?_ ?_
  · simp only [mirrorSide, flipBB_union]
  · simp only [mirrorSide, updFn]
    split_ifs <;> rfl
  · simp only [mirrorSide, flipBB_inter]
  · simp only [mirrorSide, ← flipBB_inter, card_flipBB]
  · rfl
  · rfl

theorem knightScore_mirror (board : Board) (c : Colour) (sq : Square) :
    knightScore (mirrorBoard board) (mkEvalInit (mirrorBoard board)) c.flip (flipSq sq) =
      knightScore board (mkEvalInit board) c sq := by
  unfold knightScore knightMobCount
  rw [enemyPawnsOf_mirror, mobilityAreas_init_mirror, pawnAttacks_init_mirror,
    outpostRanksMasks_flip, outpostSquareMasks_flip, knightAttacks_flip,
    mirrorBoard_pieces, pawnAdvance_flip_empty]
  simp only [Colour.flip_flip, flipSq_mem_flipBB, ← flipBB_inter, flipBB_eq_empty,
    card_flipBB]

theorem flipSq_mem_WHITE : ∀ t : Square, flipSq t ∈ WHITE_SQUARES ↔ t ∈ BLACK_SQUARES := by
  decide

theorem mem_BLACK_not_WHITE : ∀ t : Square, t ∈ BLACK_SQUARES ↔ t ∉ WHITE_SQUARES := by
  decide

theorem bishopAttacksOf_mirror (board : Board) (c : Colour) (sq : Square) :
    bishopAttacksOf (mkEvalInit (mirrorBoard board)) c.flip (flipSq sq) =
      flipBB (bishopAttacksOf (mkEvalInit board) c sq) := by
  unfold bishopAttacksOf
  rw [occupiedMinusBishops_init_mirror]
  simp only [Colour.flip_flip]
  exact bishopAttacks_flip sq _

theorem rookAttacksOf_mirror (board : Board) (c : Colour) (sq : Square) :
    rookAttacksOf (mkEvalInit (mirrorBoard board)) c.flip (flipSq sq) =
      flipBB (rookAttacksOf (mkEvalInit board) c sq) := by
  unfold rookAttacksOf
  rw [occupiedMinusRooks_init_mirror]
  simp only [Colour.flip_flip]
  exact rookAttacks_flip sq _

theorem queenAttacksOf_mirror (board : Board) (c : Colour) (sq : Square) :
    queenAttacksOf (mkEvalInit (mirrorBoard board)) c.flip (flipSq sq) =
      flipBB (queenAttacksOf (mkEvalInit board) c sq) := by
  unfold queenAttacksOf
  rw [occupiedMinusRooks_init_mirror, occupiedMinusBishops_init_mirror]
  simp only [Colour.flip_flip]
  rw [rookAttacks_flip, bishopAttacks_flip, flipBB_union]

theorem bishopScore_mirror (board : Board) (c : Colour) (sq : Square) :
    bishopScore (mirrorBoard board) (mkEvalInit (mirrorBoard board)) c.flip (flipSq sq) =
      bishopScore board (mkEvalInit board) c sq := by
  unfold bishopScore bishopMobCount
  rw [rammedPawns_init_mirror, enemyPawnsOf_mirror, myPawnsOf_mirror,
    mobilityAreas_init_mirror, pawnAttacks_init_mirror, outpostRanksMasks_flip,
    outpostSquareMasks_flip, bishopAttacksOf_mirror, ← flipBB_union,
    pawnAdvance_flip_empty]
  simp only [Colour.flip_flip, flipSq_mem_flipBB, ← flipBB_inter, flipBB_eq_empty,
    card_flipBB]
  by_cases h : sq ∈ WHITE_SQUARES
  · rw [if_pos h, if_neg (fun hc => ((mem_BLACK_not_WHITE sq).mp ((flipSq_mem_WHITE sq).mp hc)) h),
      ← flipBB_WHITE_SQUARES, ← flipBB_inter, card_flipBB]
  · rw [if_neg h, if_pos ((flipSq_mem_WHITE sq).mpr ((mem_BLACK_not_WHITE sq).mpr h)),
      ← flipBB_BLACK_SQUARES, ← flipBB_inter, card_flipBB]

theorem rookScore_mirror (board : Board) (hk : oneKingEach board) (c : Colour) (sq : Square) :
    rookScore (mirrorBoard board) (mkEvalInit (mirrorBoard board)) c.flip (flipSq sq) =
      rookScore board (mkEvalInit board) c sq := by
  unfold rookScore rookSeventhTerm rookMobCount
  rw [myPawnsOf_mirror, enemyPawnsOf_mirror, mobilityAreas_init_mirror,
    kingSquare_init_mirror board hk, rookAttacksOf_mirror, fileOf_flipSq]
  simp only [Colour.flip_flip, relativeRankOf_flip]
  conv_lhs => rw [show Files (fileOf sq) = flipBB (Files (fileOf sq)) from (flipBB_Files _).symm]
  simp only [← flipBB_inter, flipBB_eq_empty, card_flipBB]

theorem queenScore_mirror (board : Board) (c : Colour) (sq : Square) :
    queenScore (mkEvalInit (mirrorBoard board)) c.flip (flipSq sq) =
      queenScore (mkEvalInit board) c sq := by
  unfold queenScore queenMobCount
  rw [mobilityAreas_init_mirror, queenAttacksOf_mirror]
  simp only [Colour.flip_flip, ← flipBB_inter, card_flipBB]

theorem pieceLoop_mirror (k : Piece) (attF attF2 : Square → Bitboard)
    (scoreF scoreF2 : Square → Score) (area bb : Bitboard) (s : SideState)
    (hatt : ∀ y, attF2 (flipSq y) = flipBB (attF y))
    (hscore : ∀ y ∈ bb, scoreF2 (flipSq y) = scoreF y) :
    pieceLoop k attF2 scoreF2 (flipBB area) (flipBB bb) (mirrorSide s) =
      ((pieceLoop k attF scoreF area bb s).1,
        mirrorSide (pieceLoop k attF scoreF area bb s).2) := by
  unfold pieceLoop
  rw [pieceLoopL_perm k attF2 scoreF2 (flipBB area) (squaresAsc_flipBB_perm bb),
    pieceLoopL_mirror_map k attF attF2 scoreF scoreF2 area hatt (squaresAsc bb)
      (fun y hy => hscore y ((mem_squaresAsc bb y).mp hy))]

theorem knightsRes_mirror (board : Board) (hk : oneKingEach board) (c : Colour) (s : SideState) :
    knightsRes (mirrorBoard board) (mkEvalInit (mirrorBoard board)) c.flip (mirrorSide s) =
      ((knightsRes board (mkEvalInit board) c s).1,
        mirrorSide (knightsRes board (mkEvalInit board) c s).2) := by
  unfold knightsRes
  rw [mirrorBoard_pieces, mirrorBoard_colours, kingAreas_init_mirror board hk,
    ← flipBB_inter]
  simp only [Colour.flip_flip]
  exact pieceLoop_mirror _ _ _ _ _ _ _ _ knightAttacks_flip
    (fun y _ => knightScore_mirror board c y)

theorem bishopsRes_mirror (board : Board) (hk : oneKingEach board) (c : Colour) (s : SideState) :
    bishopsRes (mirrorBoard board) (mkEvalInit (mirrorBoard board)) c.flip (mirrorSide s) =
      ((bishopsRes board (mkEvalInit board) c s).1,
        mirrorSide (bishopsRes board (mkEvalInit board) c s).2) := by
  simp only [bishopsRes]
  rw [mirrorBoard_pieces, mirrorBoard_colours, kingAreas_init_mirror board hk,
    ← flipBB_inter]
  simp only [Colour.flip_flip]
  rw [pieceLoop_mirror .bishop (bishopAttacksOf (mkEvalInit board) c)
      (bishopAttacksOf (mkEvalInit (mirrorBoard board)) c.flip)
      (bishopScore board (mkEvalInit board) c)
      (bishopScore (mirrorBoard board) (mkEvalInit (mirrorBoard board)) c.flip)
      ((mkEvalInit board).kingAreas c.flip)
      (board.pieces .bishop ∩ board.colours c) s
      (fun y => bishopAttacksOf_mirror board c y)
      (fun y _ => bishopScore_mirror board c y)]
  have h1 : (flipBB (board.pieces .bishop ∩ board.colours c) ∩ WHITE_SQUARES).Nonempty ↔
      (board.pieces .bishop ∩ board.colours c ∩ BLACK_SQUARES).Nonempty := by
    rw [← flipBB_BLACK_SQUARES, ← flipBB_inter, flipBB_nonempty]
  have h2 : (flipBB (board.pieces .bishop ∩ board.colours c) ∩ BLACK_SQUARES).Nonempty ↔
      (board.pieces .bishop ∩ board.colours c ∩ WHITE_SQUARES).Nonempty := by
    rw [← flipBB_WHITE_SQUARES, ← flipBB_inter, flipBB_nonempty]
  simp only [h1, h2]
  simp only [and_comm]

theorem rooksRes_mirror (board : Board) (hk : oneKingEach board) (c : Colour) (s : SideState) :
    rooksRes (mirrorBoard board) (mkEvalInit (mirrorBoard board)) c.flip (mirrorSide s) =
      ((rooksRes board (mkEvalInit board) c s).1,
        mirrorSide (rooksRes board (mkEvalInit board) c s).2) := by
  unfold rooksRes
  rw [mirrorBoard_pieces, mirrorBoard_colours, kingAreas_init_mirror board hk,
    ← flipBB_inter]
  simp only [Colour.flip_flip]
  exact pieceLoop_mirror _ _ _ _ _ _ _ _ (fun y => rookAttacksOf_mirror board c y)
    (fun y _ => rookScore_mirror board hk c y)

theorem queensRes_mirror (board : Board) (hk : oneKingEach board) (c : Colour) (s : SideState) :
    queensRes (mirrorBoard board) (mkEvalInit (mirrorBoard board)) c.flip (mirrorSide s) =
      ((queensRes board (mkEvalInit board) c s).1,
        mirrorSide (queensRes board (mkEvalInit board) c s).2) := by
  unfold queensRes
  rw [mirrorBoard_pieces, mirrorBoard_colours, kingAreas_init_mirror board hk,
    ← flipBB_inter]
  simp only [Colour.flip_flip]
  exact pieceLoop_mirror _ _ _ _ _ _ _ _ (fun y => queenAttacksOf_mirror board c y)
    (fun y _ => queenScore_mirror board c y)

theorem sideAfterPawns_mirror (board : Board) (hk : oneKingEach board) (c : Colour) :
    sideAfterPawns (mirrorBoard board) c.flip = mirrorSide (sideAfterPawns board c) := by
  unfold sideAfterPawns
  rw [side0_mirror board hk, pawnsSide_mirror board hk]

theorem sideAfterKnights_mirror (board : Board) (hk : oneKingEach board) (c : Colour) :
    sideAfterKnights (mirrorBoard board) c.flip = mirrorSide (sideAfterKnights board c) := by
  unfold sideAfterKnights
  rw [sideAfterPawns_mirror board hk, knightsRes_mirror board hk]

theorem sideAfterBishops_mirror (board : Board) (hk : oneKingEach board) (c : Colour) :
    sideAfterBishops (mirrorBoard board) c.flip = mirrorSide (sideAfterBishops board c) := by
  unfold sideAfterBishops
  rw [sideAfterKnights_mirror board hk, bishopsRes_mirror board hk]

theorem sideAfterRooks_mirror (board : Board) (hk : oneKingEach board) (c : Colour) :
    sideAfterRooks (mirrorBoard board) c.flip = mirrorSide (sideAfterRooks board c) := by
  unfold sideAfterRooks
  rw [sideAfterBishops_mirror board hk, rooksRes_mirror board hk]

theorem sideAfterQueens_mirror (board : Board) (hk : oneKingEach board) (c : Colour) :
    sideAfterQueens (mirrorBoard board) c.flip = mirrorSide (sideAfterQueens board c) := by
  unfold sideAfterQueens
  rw [sideAfterRooks_mirror board hk, queensRes_mirror board hk]

theorem evaluateKnightsScore_mirror (board : Board) (hk : oneKingEach board) (c : Colour) :
    evaluateKnightsScore (mirrorBoard board) c.flip = evaluateKnightsScore board c := by
  unfold evaluateKnightsScore
  rw [sideAfterPawns_mirror board hk, knightsRes_mirror board hk]

theorem evaluateBishopsScore_mirror (board : Board) (hk : oneKingEach board) (c : Colour) :
    evaluateBishopsScore (mirrorBoard board) c.flip = evaluateBishopsScore board c := by
  unfold evaluateBishopsScore
  rw [sideAfterKnights_mirror board hk, bishopsRes_mirror board hk]

theorem evaluateRooksScore_mirror (board : Board) (hk : oneKingEach board) (c : Colour) :
    evaluateRooksScore (mirrorBoard board) c.flip = evaluateRooksScore board c := by
  unfold evaluateRooksScore
  rw [sideAfterBishops_mirror board hk, rooksRes_mirror board hk]

theorem evaluateQueensScore_mirror (board : Board) (hk : oneKingEach board) (c : Colour) :
    evaluateQueensScore (mirrorBoard board) c.flip = evaluateQueensScore board c := by
  unfold evaluateQueensScore
  rw [sideAfterRooks_mirror board hk, queensRes_mirror board hk]

theorem backmost_flip_file (c : Colour) (f : Nat) (b : Bitboard) (hb : b.Nonempty)
    (hf : ∀ x ∈ b, fileOf x = f) :
    backmost c.flip (flipBB b) = flipSq (backmost c b) := by
  have hfb : (flipBB b).Nonempty := flipBB_nonempty.mpr hb
  cases c
  · show getmsb (flipBB b) = flipSq (getlsb b)
    unfold getmsb getlsb
    rw [dif_pos hfb, dif_pos hb]
    apply le_antisymm
    · apply Finset.max'_le
      intro y hy
      have hx : flipSq y ∈ b := mem_flipBB.mp hy
      have h1 : (b.min' hb).val ≤ (flipSq y).val := Finset.min'_le b _ hx
      have h2 : fileOf y = f := by rw [← fileOf_flipSq y]; exact hf _ hx
      have h3 : fileOf (b.min' hb) = f := hf _ (b.min'_mem hb)
      have h4 : rankOf y ≤ 7 := rankOf_le_seven y
      have h5 : rankOf (b.min' hb) ≤ 7 := rankOf_le_seven _
      show y.val ≤ (flipSq (b.min' hb)).val
      have e1 : y.val = 8 * rankOf y + fileOf y := by unfold rankOf fileOf; omega
      have e2 : (b.min' hb).val = 8 * rankOf (b.min' hb) + fileOf (b.min' hb) := by
        unfold rankOf fileOf; omega
      have e3 : (flipSq y).val = 8 * (7 - rankOf y) + fileOf y := rfl
      have e4 : (flipSq (b.min' hb)).val =
          8 * (7 - rankOf (b.min' hb)) + fileOf (b.min' hb) := rfl
      omega
    · exact Finset.le_max' _ _ (flipSq_mem_flipBB _ b |>.mpr (b.min'_mem hb))
  · show getlsb (flipBB b) = flipSq (getmsb b)
    unfold getmsb getlsb
    rw [dif_pos hfb, dif_pos hb]
    apply le_antisymm
    · exact Finset.min'_le _ _ (flipSq_mem_flipBB _ b |>.mpr (b.max'_mem hb))
    · apply Finset.le_min'
      intro y hy
      have hx : flipSq y ∈ b := mem_flipBB.mp hy
      have h1 : (flipSq y).val ≤ (b.max' hb).val := Finset.le_max' b _ hx
      have h2 : fileOf y = f := by rw [← fileOf_flipSq y]; exact hf _ hx
      have h3 : fileOf (b.max' hb) = f := hf _ (b.max'_mem hb)
      have h4 : rankOf y ≤ 7 := rankOf_le_seven y
      have h5 : rankOf (b.max' hb) ≤ 7 := rankOf_le_seven _
      show (flipSq (b.max' hb)).val ≤ y.val
      have e1 : y.val = 8 * rankOf y + fileOf y := by unfold rankOf fileOf; omega
      have e2 : (b.max' hb).val = 8 * rankOf (b.max' hb) + fileOf (b.max' hb) := by
        unfold rankOf fileOf; omega
      have e3 : (flipSq y).val = 8 * (7 - rankOf y) + fileOf y := rfl
      have e4 : (flipSq (b.max' hb)).val =
          8 * (7 - rankOf (b.max' hb)) + fileOf (b.max' hb) := rfl
      omega

theorem kingDangerCount_mirror (board : Board) (hk : oneKingEach board) (c : Colour)
    (own their : SideState) :
    kingDangerCount (mirrorBoard board) (mkEvalInit (mirrorBoard board)) c.flip
      (mirrorSide own) (mirrorSide their) =
      kingDangerCount board (mkEvalInit board) c own their := by
  unfold kingDangerCount
  rw [kingSquare_init_mirror board hk, kingAreas_init_mirror board hk,
    myPawnsOf_mirror, occupied_mirror]
  simp only [Colour.flip_flip, mirrorSide, mirrorBoard_pieces, mirrorBoard_colours,
    knightAttacks_flip, bishopAttacks_flip, rookAttacks_flip,
    ← flipBB_compl, ← flipBB_union, ← flipBB_inter, flipBB_eq_empty, card_flipBB]

theorem kingDangerActive_mirror (board : Board) (c : Colour) (their : SideState) :
    kingDangerActive (mirrorBoard board) c.flip (mirrorSide their) ↔
      kingDangerActive board c their := by
  unfold kingDangerActive
  simp only [mirrorSide, mirrorBoard_pieces, mirrorBoard_colours, Colour.flip_flip,
    ← flipBB_inter, card_flipBB]

theorem kingDangerTerm_mirror (board : Board) (hk : oneKingEach board) (c : Colour)
    (own their : SideState) :
    kingDangerTerm (mirrorBoard board) (mkEvalInit (mirrorBoard board)) c.flip
      (mirrorSide own) (mirrorSide their) =
      kingDangerTerm board (mkEvalInit board) c own their := by
  unfold kingDangerTerm
  rw [kingDangerCount_mirror board hk c own their]
  by_cases h : kingDangerActive board c their
  · rw [if_pos ((kingDangerActive_mirror board c their).mpr h), if_pos h]
  · rw [if_neg (fun hc => h ((kingDangerActive_mirror board c their).mp hc)), if_neg h]

theorem evaluateKingsScoreOf_mirror (board : Board) (hk : oneKingEach board) (c : Colour)
    (own their : SideState) :
    evaluateKingsScoreOf (mirrorBoard board) (mkEvalInit (mirrorBoard board)) c.flip
      (mirrorSide own) (mirrorSide their) =
      evaluateKingsScoreOf board (mkEvalInit board) c own their := by
  unfold evaluateKingsScoreOf
  rw [kingAreas_init_mirror board hk, kingDangerTerm_mirror board hk]
  simp only [Colour.flip_flip, mirrorBoard_pieces, mirrorBoard_colours,
    ← flipBB_union, ← flipBB_inter, card_flipBB]

theorem evaluateKingsScore_mirror (board : Board) (hk : oneKingEach board) (c : Colour) :
    evaluateKingsScore (mirrorBoard board) c.flip = evaluateKingsScore board c := by
  unfold evaluateKingsScore
  rw [sideAfterQueens_mirror board hk c, sideAfterQueens_mirror board hk c.flip]
  exact evaluateKingsScoreOf_mirror board hk c _ _

theorem distHelper_mirror (c : Colour) (f kr : Nat) (hkr : kr ≤ 7) (P : Bitboard) :
    (if flipBB P ∩ Files f ∩ forwardRanksMasks c.flip (7 - kr) = ∅ then 7
     else (((7 - kr : Nat) : Int) - (rankOf (backmost c.flip
         (flipBB P ∩ Files f ∩ forwardRanksMasks c.flip (7 - kr))) : Int)).natAbs) =
    (if P ∩ Files f ∩ forwardRanksMasks c kr = ∅ then 7
     else ((kr : Int) -
         (rankOf (backmost c (P ∩ Files f ∩ forwardRanksMasks c kr)) : Int)).natAbs) := by
  have hS : flipBB P ∩ Files f ∩ forwardRanksMasks c.flip (7 - kr) =
      flipBB (P ∩ Files f ∩ forwardRanksMasks c kr) := by
    rw [forwardRanksMasks_flip c kr hkr]
    conv_lhs => rw [← flipBB_Files f]
    rw [← flipBB_inter, ← flipBB_inter]
  rw [hS]
  by_cases hE : P ∩ Files f ∩ forwardRanksMasks c kr = ∅
  · rw [if_pos (flipBB_eq_empty.mpr hE), if_pos hE]
  · rw [if_neg (fun hc => hE (flipBB_eq_empty.mp hc)), if_neg hE]
    have hb : (P ∩ Files f ∩ forwardRanksMasks c kr).Nonempty :=
      Finset.nonempty_iff_ne_empty.mpr hE
    have hf : ∀ x ∈ P ∩ Files f ∩ forwardRanksMasks c kr, fileOf x = f := by
      intro x hx
      have := Finset.mem_inter.mp (Finset.mem_inter.mp hx).1
      simpa [Files] using this.2
    rw [backmost_flip_file c f _ hb hf, rankOf_flipSq]
    have h7 : rankOf (backmost c (P ∩ Files f ∩ forwardRanksMasks c kr)) ≤ 7 :=
      rankOf_le_seven _
    omega

theorem shelterStormFile_mirror (board : Board) (hk : oneKingEach board) (c : Colour)
    (f : Nat) :
    shelterStormFile (mirrorBoard board) (mkEvalInit (mirrorBoard board)) c.flip f =
      shelterStormFile board (mkEvalInit board) c f := by
  simp only [shelterStormFile]
  rw [kingSquare_init_mirror board hk, myPawnsOf_mirror, enemyPawnsOf_mirror]
  simp only [Colour.flip_flip, fileOf_flipSq, rankOf_flipSq]
  rw [distHelper_mirror c f (rankOf ((mkEvalInit board).kingSquare c))
      (rankOf_le_seven _) (myPawnsOf board c),
    distHelper_mirror c f (rankOf ((mkEvalInit board).kingSquare c))
      (rankOf_le_seven _) (enemyPawnsOf board c)]

theorem kingShelterStorm_mirror (board : Board) (hk : oneKingEach board) (c : Colour) :
    kingShelterStorm (mirrorBoard board) (mkEvalInit (mirrorBoard board)) c.flip =
      kingShelterStorm board (mkEvalInit board) c := by
  unfold kingShelterStorm
  rw [kingSquare_init_mirror board hk]
  simp only [Colour.flip_flip, fileOf_flipSq]
  congr 1
  apply List.map_congr_left
  intro a _
  exact shelterStormFile_mirror board hk c a

theorem flipBB_xorBB (a b : Bitboard) : xorBB (flipBB a) (flipBB b) = flipBB (xorBB a b) := by
  unfold xorBB
  rw [← flipBB_sdiff, ← flipBB_sdiff, ← flipBB_union]

theorem pawnStoppers_mirror (board : Board) (c : Colour) (sq : Square) :
    pawnStoppers (mirrorBoard board) c.flip (flipSq sq) =
      flipBB (pawnStoppers board c sq) := by
  unfold pawnStoppers
  rw [enemyPawnsOf_mirror, passedPawnMasks_flip]
  simp only [Colour.flip_flip]
  rw [← flipBB_inter]

theorem pawnThreats_mirror (board : Board) (c : Colour) (sq : Square) :
    pawnThreats (mirrorBoard board) c.flip (flipSq sq) =
      flipBB (pawnThreats board c sq) := by
  unfold pawnThreats
  rw [enemyPawnsOf_mirror, pawnAttacks_flip]
  simp only [Colour.flip_flip]
  rw [← flipBB_inter]

theorem pawnSupport_mirror (board : Board) (c : Colour) (sq : Square) :
    pawnSupport (mirrorBoard board) c.flip (flipSq sq) =
      flipBB (pawnSupport board c sq) := by
  unfold pawnSupport
  rw [myPawnsOf_mirror, pawnAttacks_flip]
  simp only [Colour.flip_flip]
  rw [← flipBB_inter]

theorem pawnAttacksAt_advance_flip (c : Colour) (sq : Square) :
    pawnAttacksAt c.flip (fi (flipSq sq)) (ri (flipSq sq) + dirOf c.flip) =
      flipBB (pawnAttacksAt c (fi sq) (ri sq + dirOf c)) := by
  rw [fi_flipSq, ri_flipSq, dirOf_flip]
  rw [show 7 - ri sq + -dirOf c = 7 - (ri sq + dirOf c) from by ring]
  exact pawnAttacksAt_flip c (fi sq) (ri sq + dirOf c)

theorem pawnPushThreats_mirror (board : Board) (c : Colour) (sq : Square) :
    pawnPushThreats (mirrorBoard board) c.flip (flipSq sq) =
      flipBB (pawnPushThreats board c sq) := by
  unfold pawnPushThreats
  rw [enemyPawnsOf_mirror, pawnAttacksAt_advance_flip]
  simp only [Colour.flip_flip]
  rw [← flipBB_inter]

theorem pawnPushSupport_mirror (board : Board) (c : Colour) (sq : Square) :
    pawnPushSupport (mirrorBoard board) c.flip (flipSq sq) =
      flipBB (pawnPushSupport board c sq) := by
  unfold pawnPushSupport
  rw [myPawnsOf_mirror]
  simp only [Colour.flip_flip]
  rw [fi_flipSq, ri_flipSq, dirOf_flip,
    show 7 - ri sq + -dirOf c = 7 - (ri sq + dirOf c) from by ring]
  have h := pawnAttacksAt_flip c.flip (fi sq) (ri sq + dirOf c)
  rw [Colour.flip_flip] at h
  rw [h, ← flipBB_inter]

theorem pawnLeftovers_mirror (board : Board) (c : Colour) (sq : Square) :
    pawnLeftovers (mirrorBoard board) c.flip (flipSq sq) =
      flipBB (pawnLeftovers board c sq) := by
  unfold pawnLeftovers
  rw [pawnStoppers_mirror, pawnThreats_mirror, pawnPushThreats_mirror,
    flipBB_xorBB, flipBB_xorBB]

theorem pawnCandidateTerm_mirror (board : Board) (c : Colour) (sq : Square) :
    pawnCandidateTerm (mirrorBoard board) c.flip (flipSq sq) =
      pawnCandidateTerm board c sq := by
  unfold pawnCandidateTerm
  rw [pawnStoppers_mirror, pawnLeftovers_mirror, pawnPushThreats_mirror,
    pawnPushSupport_mirror, pawnThreats_mirror, pawnSupport_mirror]
  simp only [flipBB_eq_empty, card_flipBB, relativeRankOf_flip]

theorem pawnIsolatedTerm_mirror (board : Board) (c : Colour) (sq : Square) :
    pawnIsolatedTerm (mirrorBoard board) c.flip (flipSq sq) =
      pawnIsolatedTerm board c sq := by
  unfold pawnIsolatedTerm
  rw [myPawnsOf_mirror, fileOf_flipSq]
  simp only [Colour.flip_flip]
  conv_lhs => rw [← flipBB_adjacentFiles]
  rw [← flipBB_inter]
  simp only [flipBB_eq_empty]

theorem pawnBackwardCond_mirror (board : Board) (c : Colour) (sq : Square) :
    pawnBackwardCond (mirrorBoard board) (mkEvalInit (mirrorBoard board)) c.flip (flipSq sq) ↔
      pawnBackwardCond board (mkEvalInit board) c sq := by
  unfold pawnBackwardCond
  rw [myPawnsOf_mirror, pawnAttacks_init_mirror]
  simp only [Colour.flip_flip]
  have h := passedPawnMasks_flip c.flip sq
  rw [Colour.flip_flip] at h
  rw [h, show ({flipSq sq} : Bitboard) = flipBB {sq} from (flipBB_singleton sq).symm,
    pawnAdvance_flip_empty]
  simp only [← flipBB_inter, flipBB_eq_empty, flipBB_nonempty]

theorem pawnBackwardConnectedTerm_mirror (board : Board) (c : Colour) (sq : Square) :
    pawnBackwardConnectedTerm (mirrorBoard board) (mkEvalInit (mirrorBoard board)) c.flip
      (flipSq sq) = pawnBackwardConnectedTerm board (mkEvalInit board) c sq := by
  unfold pawnBackwardConnectedTerm
  rw [myPawnsOf_mirror, enemyPawnsOf_mirror, pawnConnectedMasks_flip, fileOf_flipSq,
    relativeSquare32_flip]
  simp only [Colour.flip_flip]
  conv_lhs => rw [show Files (fileOf sq) = flipBB (Files (fileOf sq)) from (flipBB_Files _).symm]
  simp only [← flipBB_inter, flipBB_eq_empty, flipBB_nonempty]
  by_cases h : pawnBackwardCond board (mkEvalInit board) c sq
  · rw [if_pos ((pawnBackwardCond_mirror board c sq).mpr h), if_pos h]
  · rw [if_neg (fun hc => h ((pawnBackwardCond_mirror board c sq).mp hc)),
      if_neg h]

theorem evaluatePawnsPkeval_mirror (board : Board) (c : Colour) :
    evaluatePawnsPkeval (mirrorBoard board) (mkEvalInit (mirrorBoard board)) c.flip =
      evaluatePawnsPkeval board (mkEvalInit board) c := by
  unfold evaluatePawnsPkeval
  rw [myPawnsOf_mirror, pawnFold_eq_sum, pawnFold_eq_sum]
  simp only [Colour.flip_flip]
  have hsplit : ∀ (bd : Board) (ini : EvalInit) (d : Colour) (P : Bitboard),
      (∑ sq ∈ P, pawnBody bd ini d sq (laterPawns P sq)) =
        (∑ sq ∈ P, (pawnCandidateTerm bd d sq + pawnIsolatedTerm bd d sq +
          pawnBackwardConnectedTerm bd ini d sq)) +
        ∑ sq ∈ P, pawnStackedTerm (laterPawns P sq) sq := by
    intro bd ini d P
    rw [← Finset.sum_add_distrib]
    apply Finset.sum_congr rfl
    intro sq _
    unfold pawnBody
    ring
  rw [hsplit, hsplit]
  congr 1
  · rw [sum_flipBB]
    apply Finset.sum_congr rfl
    intro sq _
    rw [pawnCandidateTerm_mirror, pawnIsolatedTerm_mirror, pawnBackwardConnectedTerm_mirror]
  · rw [stackedSum_decompose, stackedSum_decompose]
    apply Finset.sum_congr rfl
    intro f _
    have hc : (flipBB (myPawnsOf board c) ∩ Files f).card =
        (myPawnsOf board c ∩ Files f).card := by
      conv_lhs => rw [← flipBB_Files f]
      rw [← flipBB_inter, card_flipBB]
    have hne : (flipBB (myPawnsOf board c) ∩ Files f).Nonempty ↔
        (myPawnsOf board c ∩ Files f).Nonempty := by
      conv_lhs => rw [← flipBB_Files f]
      rw [← flipBB_inter, flipBB_nonempty]
    by_cases h : (myPawnsOf board c ∩ Files f).Nonempty
    · rw [if_pos (hne.mpr h), if_pos h, hc]
    · rw [if_neg (fun hcon => h (hne.mp hcon)), if_neg h]

theorem passedPawnsOf_mirror (board : Board) (c : Colour) :
    passedPawnsOf (mirrorBoard board) c.flip = flipBB (passedPawnsOf board c) := by
  unfold passedPawnsOf
  rw [myPawnsOf_mirror, filter_flipBB]
  simp only [Colour.flip_flip]
  congr 1
  apply Finset.filter_congr
  intro sq _
  rw [pawnStoppers_mirror]
  simp only [flipBB_eq_empty]

theorem passedMiss_mirror (board : Board) :
    passedMiss (mirrorBoard board) = flipBB (passedMiss board) := by
  unfold passedMiss
  have h1 : passedPawnsOf (mirrorBoard board) .white = flipBB (passedPawnsOf board .black) :=
    passedPawnsOf_mirror board .black
  have h2 : passedPawnsOf (mirrorBoard board) .black = flipBB (passedPawnsOf board .white) :=
    passedPawnsOf_mirror board .white
  rw [h1, h2, ← flipBB_union, Finset.union_comm]

theorem passedPawnSquareScore_mirror (board : Board) (hk : oneKingEach board) (c : Colour)
    (ta : Bitboard) (sq : Square) :
    passedPawnSquareScore (mirrorBoard board) (mkEvalInit (mirrorBoard board)) c.flip
      (flipBB ta) (flipSq sq) = passedPawnSquareScore board (mkEvalInit board) c ta sq := by
  simp only [passedPawnSquareScore]
  rw [occupied_mirror, kingSquare_init_mirror board hk, kingSquare_init_mirror board hk,
    show ({flipSq sq} : Bitboard) = flipBB {sq} from (flipBB_singleton sq).symm,
    pawnAdvance_flip_empty, rankOf_flipSq, fileOf_flipSq,
    forwardRanksMasks_flip c (rankOf sq) (rankOf_le_seven sq)]
  conv_lhs => rw [← flipBB_Files (fileOf sq)]
  simp only [Colour.flip_flip, relativeRankOf_flip, distanceBetween_flip,
    ← flipBB_inter, flipBB_eq_empty]

theorem evaluatePassedPawnsScore_mirror (board : Board) (hk : oneKingEach board) (c : Colour)
    (passed ta : Bitboard) :
    evaluatePassedPawnsScore (mirrorBoard board) (mkEvalInit (mirrorBoard board)) c.flip
      (flipBB passed) (flipBB ta) =
      evaluatePassedPawnsScore board (mkEvalInit board) c passed ta := by
  unfold evaluatePassedPawnsScore
  rw [mirrorBoard_colours]
  simp only [Colour.flip_flip]
  rw [← flipBB_inter, sum_flipBB]
  apply Finset.sum_congr rfl
  intro sq _
  exact passedPawnSquareScore_mirror board hk c ta sq

theorem evaluatePassedScore_mirror (board : Board) (hk : oneKingEach board) (c : Colour) :
    evaluatePassedScore (mirrorBoard board) none c.flip =
      evaluatePassedScore board none c := by
  unfold evaluatePassedScore passedPawnsFinal
  rw [passedMiss_mirror, sideAfterQueens_mirror board hk c.flip]
  exact evaluatePassedPawnsScore_mirror board hk c _ _

theorem evaluateThreatsScore_mirror (board : Board) (c : Colour) (own their : SideState) :
    evaluateThreatsScore (mirrorBoard board) c.flip (mirrorSide own) (mirrorSide their) =
      evaluateThreatsScore board c own their := by
  have hrank : (if c.flip = Colour.white then Ranks 2 else Ranks 5) =
      flipBB (if c = Colour.white then Ranks 2 else Ranks 5) := by
    cases c
    · rw [if_neg (by decide), if_pos rfl, flipBB_Ranks 2 (by omega)]
    · rw [if_pos (by decide), if_neg (by decide), flipBB_Ranks 5 (by omega)]
  simp only [evaluateThreatsScore, mirrorSide, mirrorBoard_pieces, mirrorBoard_colours,
    Colour.flip_flip, hrank, pawnAdvance_flip, pawnAttackSpan_flip,
    ← flipBB_compl, ← flipBB_union, ← flipBB_inter, card_flipBB]

theorem evaluateThreatsScoreOf_mirror (board : Board) (hk : oneKingEach board) (c : Colour) :
    evaluateThreatsScoreOf (mirrorBoard board) c.flip = evaluateThreatsScoreOf board c := by
  unfold evaluateThreatsScoreOf
  rw [sideAfterQueens_mirror board hk c, sideAfterQueens_mirror board hk c.flip]
  exact evaluateThreatsScore_mirror board c _ _

theorem PSQT_flip (c : Colour) (p : Piece) (sq : Square) :
    PSQT c.flip p (flipSq sq) = -PSQT c p sq := by
  cases c
  · show -(PieceValues p + piecePSQT32 p (relativeSquare32 (flipSq sq) .black)) = _
    have h : relativeSquare32 (flipSq sq) .black = relativeSquare32 sq .white :=
      relativeSquare32_flip .white sq
    rw [h]
    rfl
  · show PieceValues p + piecePSQT32 p (relativeSquare32 (flipSq sq) .white) = _
    have h : relativeSquare32 (flipSq sq) .white = relativeSquare32 sq .black :=
      relativeSquare32_flip .black sq
    rw [h]
    show _ = - -(PieceValues p + piecePSQT32 p (relativeSquare32 sq .black))
    rw [neg_neg]

theorem colourFlipEquiv_sum {M : Type} [AddCommMonoid M] (g : Colour → M) :
    (∑ c : Colour, g c.flip) = ∑ c : Colour, g c :=
  Equiv.sum_comp ⟨Colour.flip, Colour.flip, Colour.flip_flip, Colour.flip_flip⟩ g

theorem psqtFromScratch_mirror (board : Board) :
    psqtFromScratch (mirrorBoard board) = -psqtFromScratch board := by
  unfold psqtFromScratch
  rw [← Finset.sum_neg_distrib, ← colourFlipEquiv_sum
    (fun c => -∑ p : Piece, ∑ sq ∈ board.pieces p ∩ board.colours c, PSQT c p sq)]
  apply Finset.sum_congr rfl
  intro c _
  rw [← Finset.sum_neg_distrib]
  apply Finset.sum_congr rfl
  intro p _
  rw [mirrorBoard_pieces, mirrorBoard_colours, ← flipBB_inter, sum_flipBB,
    ← Finset.sum_neg_distrib]
  apply Finset.sum_congr rfl
  intro sq _
  have h := PSQT_flip c.flip p sq
  rw [Colour.flip_flip] at h
  exact h

theorem mirror_psqtmat (board : Board) (hp : board.psqtmat = psqtFromScratch board) :
    (mirrorBoard board).psqtmat = -board.psqtmat := by
  have h0 : (mirrorBoard board).psqtmat = psqtFromScratch (mirrorBoard board) := by
    unfold mirrorBoard psqtFromScratch
    simp only [Finset.inter_comm]
  rw [h0, psqtFromScratch_mirror, hp]

theorem Tempo_flip : ∀ t : Colour, Tempo t.flip = -Tempo t := by
  intro t
  cases t <;> rfl

theorem rawPhase_mirror (board : Board) :
    rawPhase (mirrorBoard board) = rawPhase board := by
  unfold rawPhase
  simp only [mirrorBoard_pieces, ← flipBB_union, card_flipBB]

theorem gamePhase_mirror (board : Board) :
    gamePhase (mirrorBoard board) = gamePhase board := by
  unfold gamePhase
  rw [rawPhase_mirror]

theorem evaluateScaleFactor_mirror (board : Board)
    (hdisj : Disjoint (board.colours .white) (board.colours .black))
    (hcover : board.pieces .bishop ⊆ board.colours .white ∪ board.colours .black) :
    evaluateScaleFactor (mirrorBoard board) = evaluateScaleFactor board := by
  have hw : (mirrorBoard board).colours .white = flipBB (board.colours .black) := rfl
  have hb : (mirrorBoard board).colours .black = flipBB (board.colours .white) := rfl
  have hws : (flipBB (board.pieces .bishop) ∩ WHITE_SQUARES).card =
      (board.pieces .bishop ∩ BLACK_SQUARES).card := by
    rw [← flipBB_BLACK_SQUARES, ← flipBB_inter, card_flipBB]
  have hkey : (board.colours .white ∩ board.pieces .bishop).card = 1 →
      (board.colours .black ∩ board.pieces .bishop).card = 1 →
      ((board.pieces .bishop ∩ BLACK_SQUARES).card = 1 ↔
        (board.pieces .bishop ∩ WHITE_SQUARES).card = 1) := by
    intro h1 h2
    have hcard2 : (board.pieces .bishop).card = 2 := by
      have hsplit : board.pieces .bishop =
          (board.colours .white ∩ board.pieces .bishop) ∪
            (board.colours .black ∩ board.pieces .bishop) := by
        rw [← Finset.union_inter_distrib_right]
        exact (Finset.inter_eq_right.mpr hcover).symm
      have hdisj2 : Disjoint (board.colours .white ∩ board.pieces .bishop)
          (board.colours .black ∩ board.pieces .bishop) :=
        (hdisj.mono Finset.inter_subset_left Finset.inter_subset_left)
      rw [hsplit, Finset.card_union_of_disjoint hdisj2, h1, h2]
    have hbw : board.pieces .bishop ∩ BLACK_SQUARES =
        board.pieces .bishop \ (board.pieces .bishop ∩ WHITE_SQUARES) := by
      ext t
      simp only [Finset.mem_inter, Finset.mem_sdiff, mem_BLACK_not_WHITE]
      tauto
    have hsum : (board.pieces .bishop ∩ WHITE_SQUARES).card +
        (board.pieces .bishop ∩ BLACK_SQUARES).card = 2 := by
      rw [hbw, Finset.card_sdiff (Finset.inter_subset_left), hcard2]
      have hle : (board.pieces .bishop ∩ WHITE_SQUARES).card ≤ 2 := by
        rw [← hcard2]
        exact Finset.card_le_card Finset.inter_subset_left
      omega
    omega
  simp only [evaluateScaleFactor, hw, hb, mirrorBoard_pieces, onlyOne,
    ← flipBB_union, ← flipBB_inter, card_flipBB, flipBB_eq_empty, hws]
  have h3 : ((board.colours .black ∩ board.pieces .bishop).card = 1 ∧
      (board.colours .white ∩ board.pieces .bishop).card = 1 ∧
      (board.pieces .bishop ∩ BLACK_SQUARES).card = 1) ↔
      ((board.colours .white ∩ board.pieces .bishop).card = 1 ∧
      (board.colours .black ∩ board.pieces .bishop).card = 1 ∧
      (board.pieces .bishop ∩ WHITE_SQUARES).card = 1) := by
    constructor
    · rintro ⟨a, b, cc⟩
      exact ⟨b, a, (hkey b a).mp cc⟩
    · rintro ⟨a, b, cc⟩
      exact ⟨b, a, (hkey a b).mpr cc⟩
  have h4 : (board.pieces .rook ∪ board.pieces .queen = ∅ ∧
      (board.colours .black ∩ board.pieces .knight).card = 1 ∧
      (board.colours .white ∩ board.pieces .knight).card = 1) ↔
      (board.pieces .rook ∪ board.pieces .queen = ∅ ∧
      (board.colours .white ∩ board.pieces .knight).card = 1 ∧
      (board.colours .black ∩ board.pieces .knight).card = 1) := by
    tauto
  have h5 : (board.pieces .knight ∪ board.pieces .queen = ∅ ∧
      (board.colours .black ∩ board.pieces .rook).card = 1 ∧
      (board.colours .white ∩ board.pieces .rook).card = 1) ↔
      (board.pieces .knight ∪ board.pieces .queen = ∅ ∧
      (board.colours .white ∩ board.pieces .rook).card = 1 ∧
      (board.colours .black ∩ board.pieces .rook).card = 1) := by
    tauto
  simp only [h3, h4, h5]

theorem evaluatePieces_mirror (board : Board) (hk : oneKingEach board) :
    evaluatePieces (mirrorBoard board) none = -evaluatePieces board none := by
  unfold evaluatePieces
  have k1 : evaluateKnightsScore (mirrorBoard board) .white = evaluateKnightsScore board .black :=
    evaluateKnightsScore_mirror board hk .black
  have k2 : evaluateKnightsScore (mirrorBoard board) .black = evaluateKnightsScore board .white :=
    evaluateKnightsScore_mirror board hk .white
  have b1 : evaluateBishopsScore (mirrorBoard board) .white = evaluateBishopsScore board .black :=
    evaluateBishopsScore_mirror board hk .black
  have b2 : evaluateBishopsScore (mirrorBoard board) .black = evaluateBishopsScore board .white :=
    evaluateBishopsScore_mirror board hk .white
  have r1 : evaluateRooksScore (mirrorBoard board) .white = evaluateRooksScore board .black :=
    evaluateRooksScore_mirror board hk .black
  have r2 : evaluateRooksScore (mirrorBoard board) .black = evaluateRooksScore board .white :=
    evaluateRooksScore_mirror board hk .white
  have q1 : evaluateQueensScore (mirrorBoard board) .white = evaluateQueensScore board .black :=
    evaluateQueensScore_mirror board hk .black
  have q2 : evaluateQueensScore (mirrorBoard board) .black = evaluateQueensScore board .white :=
    evaluateQueensScore_mirror board hk .white
  have g1 : evaluateKingsScore (mirrorBoard board) .white = evaluateKingsScore board .black :=
    evaluateKingsScore_mirror board hk .black
  have g2 : evaluateKingsScore (mirrorBoard board) .black = evaluateKingsScore board .white :=
    evaluateKingsScore_mirror board hk .white
  have p1 : evaluatePassedScore (mirrorBoard board) none .white =
      evaluatePassedScore board none .black :=
    evaluatePassedScore_mirror board hk .black
  have p2 : evaluatePassedScore (mirrorBoard board) none .black =
      evaluatePassedScore board none .white :=
    evaluatePassedScore_mirror board hk .white
  have t1 : evaluateThreatsScoreOf (mirrorBoard board) .white =
      evaluateThreatsScoreOf board .black :=
    evaluateThreatsScoreOf_mirror board hk .black
  have t2 : evaluateThreatsScoreOf (mirrorBoard board) .black =
      evaluateThreatsScoreOf board .white :=
    evaluateThreatsScoreOf_mirror board hk .white
  rw [k1, k2, b1, b2, r1, r2, q1, q2, g1, g2, p1, p2, t1, t2]
  ring

theorem pkevalFinal_mirror (board : Board) (hk : oneKingEach board) (c : Colour) :
    pkevalFinal (mirrorBoard board) none c.flip = pkevalFinal board none c := by
  show evaluatePawnsPkeval (mirrorBoard board) (mkEvalInit (mirrorBoard board)) c.flip +
      kingShelterStorm (mirrorBoard board) (mkEvalInit (mirrorBoard board)) c.flip =
    evaluatePawnsPkeval board (mkEvalInit board) c + kingShelterStorm board (mkEvalInit board) c
  rw [evaluatePawnsPkeval_mirror, kingShelterStorm_mirror board hk]

theorem whiteEval_mirror (board : Board) (hk : oneKingEach board)
    (hp : board.psqtmat = psqtFromScratch board) :
    whiteEval (mirrorBoard board) none = -whiteEval board none := by
  unfold whiteEval
  have hpk1 : pkevalFinal (mirrorBoard board) none .white = pkevalFinal board none .black :=
    pkevalFinal_mirror board hk .black
  have hpk2 : pkevalFinal (mirrorBoard board) none .black = pkevalFinal board none .white :=
    pkevalFinal_mirror board hk .white
  rw [evaluatePieces_mirror board hk, hpk1, hpk2, mirror_psqtmat board hp,
    show (mirrorBoard board).turn = board.turn.flip from rfl, Tempo_flip]
  ring

theorem blendedEval_mirror_neg (board : Board) (hk : oneKingEach board)
    (hp : board.psqtmat = psqtFromScratch board)
    (hdisj : Disjoint (board.colours .white) (board.colours .black))
    (hcover : board.pieces .bishop ⊆ board.colours .white ∪ board.colours .black) :
    blendedEval (mirrorBoard board) none = -blendedEval board none := by
  unfold blendedEval
  rw [whiteEval_mirror board hk hp, gamePhase_mirror,
    evaluateScaleFactor_mirror board hdisj hcover]
  simp only [ScoreMG, ScoreEG, Prod.fst_neg, Prod.snd_neg, neg_mul]
  rw [Int.neg_tdiv, ← neg_add, Int.neg_tdiv]

/-- C2: for every position and its colour-mirrored twin (board flipped
vertically, colours swapped, side to move swapped), `evaluateBoard`
without a pawn-king table returns the same integer.  The position is
assumed legal in the respects the evaluator relies on: one king per
side, the `psqtmat` accumulator holding its documented from-scratch
value, disjoint colour occupancies, and bishops standing on occupied
squares. -/
theorem evaluateBoard_color_symmetry (board : Board) (hk : oneKingEach board)
    (hp : board.psqtmat = psqtFromScratch board)
    (hdisj : Disjoint (board.colours .white) (board.colours .black))
    (hcover : board.pieces .bishop ⊆ board.colours .white ∪ board.colours .black) :
    evaluateBoard (mirrorBoard board) none = evaluateBoard board none := by
  simp only [evaluateBoard]
  rw [show pkentryOf (mirrorBoard board) none = none from rfl,
    show pkentryOf board none = none from rfl,
    blendedEval_mirror_neg board hk hp hdisj hcover,
    show (mirrorBoard board).turn = board.turn.flip from rfl]
  cases board.turn
  · rw [if_neg (by decide), if_pos rfl, neg_neg]
  · rw [if_pos (by decide), if_neg (by decide)]

/-- Witness for C2: the mirror-symmetric bare-kings board satisfies all
four legality hypotheses, and the theorem applies to it. -/
theorem evaluateBoard_color_symmetry_witness :
    (oneKingEach symmKingsBoard ∧
      symmKingsBoard.psqtmat = psqtFromScratch symmKingsBoard ∧
      Disjoint (symmKingsBoard.colours .white) (symmKingsBoard.colours .black) ∧
      symmKingsBoard.pieces .bishop ⊆
        symmKingsBoard.colours .white ∪ symmKingsBoard.colours .black) ∧
    evaluateBoard (mirrorBoard symmKingsBoard) none = evaluateBoard symmKingsBoard none :=
  ⟨⟨by decide, by decide, by decide, by decide⟩,
    evaluateBoard_color_symmetry symmKingsBoard (by decide) (by decide) (by decide) (by decide)⟩

end Ethereal
